import Mathlib

/-!
# Ulimit codec of `util/buildflags`

A shallow embedding of `util/buildflags/ulimits.go` and
`util/buildflags/ulimits_cty.go`.

* Go `string` is `String`; `int64` is `Int` (the code only copies limits, the
  64-bit range matters where a number is converted, see `BigFloat.Int64`).
* A Go `map[string]*Ulimit` is an `AList` (pairwise distinct keys); the order of
  its entries is the order in which a `range` loop visits them, so a statement
  over every `AList` covers every iteration order. A nil map is `none`.
* A Go function returning `(T, error)` returns a pair `T × Option GoError`.
-/

namespace buildflags

/-! ## Definitions -/

/-- The struct `Ulimit` of `ulimits.go`: a hard and a soft limit, both `int64`. -/
structure Ulimit where
  Hard : Int
  Soft : Int
deriving DecidableEq, Repr

/-- The struct `units.Ulimit` of the go-units dependency, the result of
`units.ParseUlimit`. -/
structure units.Ulimit where
  Name : String
  Hard : Int
  Soft : Int
deriving DecidableEq, Repr

/-- The two sentinel causes carried by a `strconv.NumError`: `ErrSyntax` and
`ErrRange`. -/
inductive strconv.Cause where
  | invalid
  | range
deriving DecidableEq, Repr

/-! ### The structured values of the go-cty dependency

The fragment of `cty.Type` and `cty.Value` the decoders can observe: wholly
known, unmarked values of primitive, collection and structural types, and typed
nulls. Unknown values, marks and capsule types are outside the model. -/

/-- A `cty.Type`. The optional-attribute set of an object type is carried for
type constraints such as `ulimitType`; the type of a value has none. -/
inductive CtyType where
  | number
  | string
  | bool
  | dynamic
  | list (ety : CtyType)
  | set (ety : CtyType)
  | map (ety : CtyType)
  | tuple (etys : List CtyType)
  | object (atys : List (String × CtyType)) (optional : List String)

/-- The value of a `*big.Float`: a finite number (every finite float is a
rational) or an infinity, `inf true` being the negative one. -/
inductive BigFloat where
  | fin (q : ℚ)
  | inf (neg : Bool)

/-- A `cty.Value`: a known value of each kind, or the null value of a type.
Elements are listed in the order `ElementIterator` visits them. -/
inductive CtyValue where
  | number (x : BigFloat)
  | string (s : String)
  | bool (b : Bool)
  | list (ety : CtyType) (elems : List CtyValue)
  | set (ety : CtyType) (elems : List CtyValue)
  | map (ety : CtyType) (elems : List (String × CtyValue))
  | tuple (elems : List CtyValue)
  | object (attrs : List (String × CtyValue))
  | null (ty : CtyType)

/-- A step of a `cty.Path`. -/
inductive cty.PathStep where
  | GetAttrStep (Name : String)
  | IndexStep (Key : CtyValue)

/-- A `cty.Path`. -/
abbrev cty.Path := List cty.PathStep

/-- The ways `units.ParseUlimit` of go-units fails. -/
inductive units.Failure where
  | invalidArgument (val : String)
  | invalidType (name : String)
  | tooManyValues (vals : String)
  | softUnlimited (hard : Int)
  | softAboveHard (soft hard : Int)

/-- The Go `error` values that occur in this package. -/
inductive GoError where
  -- An error of `units.ParseUlimit`.
  | units (f : units.Failure)
  -- A `*strconv.NumError` with its `Func`, `Num` and `Err`.
  | numError (fn : String) (num : String) (cause : strconv.Cause)
  -- An error whose text is `convert.MismatchMessage(got, want)`; with a path
  -- it is the `cty.PathError` of `p.NewErrorf`, without one the plain error of
  -- `convert.Convert`.
  | mismatch (path : Option cty.Path) (got want : CtyType)
  -- The path error "a number is required" of converting a string element.
  | numberRequired (path : cty.Path)
  -- The path error "map has no element for required attribute".
  | missingAttribute (path : cty.Path) (name : String)
  -- The error "too few limit value arguments - parts, must have at least
  -- one".
  | tooFew (parts : List Int)
  -- The error "too many limit value arguments - parts, can only have up to
  -- two".
  | tooMany (parts : List Int)

/-! ### The string and number parsing of the Go standard library -/

/-- The pieces of `strings.Split(s, sep)` for a one-character separator, on
the characters of `s`: always at least one piece. -/
def strings.splitChars (sep : Char) : List Char → List (List Char)
  | [] => [[]]
  | c :: cs =>
    if c = sep then [] :: strings.splitChars sep cs
    else
      match strings.splitChars sep cs with
      | [] => [[c]]
      | piece :: pieces => (c :: piece) :: pieces

/-- `strings.Split(s, sep)` for a one-character separator. -/
def strings.Split (s : String) (sep : Char) : List String :=
  (strings.splitChars sep s.data).map String.mk

/-- The pieces of `strings.SplitN(s, sep, 2)` for a one-character separator:
the text before the first separator and the text after it, or the whole text
when there is no separator. -/
def strings.splitFirst (sep : Char) : List Char → List (List Char)
  | [] => [[]]
  | c :: cs =>
    if c = sep then [[], cs]
    else
      match strings.splitFirst sep cs with
      | piece :: pieces => (c :: piece) :: pieces
      | [] => [[c]]

/-- `strings.SplitN(s, sep, 2)` for a one-character separator. -/
def strings.SplitN2 (s : String) (sep : Char) : List String :=
  (strings.splitFirst sep s.data).map String.mk

/-- The loop of `strconv.ParseUint(s, 10, 64)`: a character that is not a
decimal digit is a syntax failure; a digit is accumulated in 64-bit unsigned
arithmetic, with a range failure when the product or the sum overflows. -/
def strconv.ParseUint.loop : List Char → Nat → Except strconv.Cause Nat
  | [], n => .ok n
  | c :: cs, n =>
    if c.isDigit then
      let d := c.toNat - 48
      if n ≥ (2 ^ 64 - 1) / 10 + 1 then .error .range
      else
        let n10 := n * 10 % 2 ^ 64
        let n1 := (n10 + d) % 2 ^ 64
        if n1 < n10 then .error .range
        else strconv.ParseUint.loop cs n1
    else .error .invalid

/-- `strconv.ParseUint(s, 10, 64)` on the characters of `s`. -/
def strconv.ParseUint (s : List Char) : Except strconv.Cause Nat :=
  match s with
  | [] => .error .invalid
  | _ => strconv.ParseUint.loop s 0

/-- `strconv.ParseInt(s, 10, 64)`: an optional sign, then `ParseUint`; the
magnitude must fit in a signed 64-bit integer. The error is the
`*strconv.NumError` naming the function and the input. -/
def strconv.ParseInt (s : String) : Except GoError Int :=
  match s.data with
  | [] => .error (.numError "ParseInt" s .invalid)
  | c :: cs =>
    let neg := c = '-'
    let rest := if c = '+' ∨ c = '-' then cs else c :: cs
    match strconv.ParseUint rest with
    | .error .invalid => .error (.numError "ParseInt" s .invalid)
    | .error .range => .error (.numError "ParseInt" s .range)
    | .ok un =>
      if ¬ neg ∧ un ≥ 2 ^ 63 then .error (.numError "ParseInt" s .range)
      else if neg ∧ un > 2 ^ 63 then .error (.numError "ParseInt" s .range)
      else if neg then .ok (-(un : Int))
      else .ok (un : Int)

/-- The number a run of decimal digits denotes when read after the number
`acc`, in unbounded arithmetic. -/
def strconv.digitsValue (acc : Nat) (cs : List Char) : Nat :=
  cs.foldl (fun a c => a * 10 + (c.toNat - 48)) acc

/-! ### The token parser of the go-units dependency -/

/-- The keys of `ulimitNameMapping` of go-units. -/
def units.ulimitNames : List String :=
  ["core", "cpu", "data", "fsize", "locks", "memlock", "msgqueue", "nice",
   "nofile", "nproc", "rss", "rtprio", "rttime", "sigpending", "stack"]

/-- The check at the end of `units.ParseUlimit`: unless the hard limit is -1
(unlimited), the soft limit is neither -1 nor above the hard limit. -/
def units.checkLimits (name : String) (soft hard : Int) :
    Except GoError units.Ulimit :=
  if hard ≠ -1 ∧ soft = -1 then .error (.units (.softUnlimited hard))
  else if hard ≠ -1 ∧ soft > hard then .error (.units (.softAboveHard soft hard))
  else .ok ⟨name, hard, soft⟩

/-- `units.ParseUlimit` of go-units: the token is `name=soft[:hard]`, the name
is one of `ulimitNames`, the hard limit is parsed before the soft limit and
defaults to it. -/
def units.ParseUlimit (val : String) : Except GoError units.Ulimit :=
  match strings.SplitN2 val '=' with
  | [name, value] =>
    if name ∈ units.ulimitNames then
      match strings.Split value ':' with
      | [softText, hardText] =>
        match strconv.ParseInt hardText with
        | .error err => .error err
        | .ok hard =>
          match strconv.ParseInt softText with
          | .error err => .error err
          | .ok soft => units.checkLimits name soft hard
      | [softText] =>
        match strconv.ParseInt softText with
        | .error err => .error err
        | .ok soft => units.checkLimits name soft soft
      | _ => .error (.units (.tooManyValues value))
    else .error (.units (.invalidType name))
  | _ => .error (.units (.invalidArgument val))

/-! ### `ulimits.go` -/

/-- A non-nil Go map `map[string]*Ulimit`. An entry value is a pointer, `none`
is the nil pointer. -/
abbrev UlimitMap := AList (fun _ : String => Option Ulimit)

/-- The type `Ulimits` of `ulimits.go`, `map[string]*Ulimit`; `none` is the nil
map. -/
abbrev Ulimits := Option UlimitMap

/-- The entries a `range` loop over the map visits; a nil map has none. -/
def Ulimits.entries : Ulimits → List (Sigma fun _ : String => Option Ulimit)
  | none => []
  | some m => m.entries

/-- The map read `v, ok := u[k]`: `none` when `k` is not a key (also on a nil
map), `some v` when it is. -/
def Ulimits.lookup (u : Ulimits) (k : String) : Option (Option Ulimit) :=
  match u with
  | none => none
  | some m => m.lookup k

/-- `func (u Ulimits) Merge(other Ulimits) Ulimits`: a nil receiver is replaced
by a fresh empty map, then every entry of `other` is stored into it, and the
receiver map is returned. -/
def Ulimits.Merge (u other : Ulimits) : Ulimits :=
  let u0 : UlimitMap := match u with
    | none => ∅
    | some m => m
  some (other.entries.foldl (fun acc kv => acc.insert kv.1 kv.2) u0)

/-- The loop of `ParseUlimits`: each token is parsed with `units.ParseUlimit`
(the parameter `parseUlimit`); the first failure returns `(nil, err)`, a
parsed token stores a fresh `Ulimit` under its name. -/
def ParseUlimits.loop (parseUlimit : String → Except GoError units.Ulimit) :
    List String → UlimitMap → Ulimits × Option GoError
  | [], ulimits => (some ulimits, none)
  | tok :: rest, ulimits =>
    match parseUlimit tok with
    | .error err => (none, some err)
    | .ok u =>
      ParseUlimits.loop parseUlimit rest
        (ulimits.insert u.Name (some { Soft := u.Soft, Hard := u.Hard }))

/-- `func ParseUlimits(s []string) (Ulimits, error)`, over the token parser
`units.ParseUlimit` of go-units. -/
def ParseUlimits (parseUlimit : String → Except GoError units.Ulimit)
    (s : List String) : Ulimits × Option GoError :=
  ParseUlimits.loop parseUlimit s ∅

/-! ### Operations on structured values (go-cty) -/

mutual
/-- `Value.Type()`. -/
def CtyValue.ctyType : CtyValue → CtyType
  | .number _ => .number
  | .string _ => .string
  | .bool _ => .bool
  | .list ety _ => .list ety
  | .set ety _ => .set ety
  | .map ety _ => .map ety
  | .tuple elems => .tuple (CtyValue.elemTypes elems)
  | .object attrs => .object (CtyValue.attrTypes attrs) []
  | .null ty => ty
/-- The element types of a tuple value. -/
def CtyValue.elemTypes : List CtyValue → List CtyType
  | [] => []
  | v :: vs => v.ctyType :: CtyValue.elemTypes vs
/-- The attribute types of an object value. -/
def CtyValue.attrTypes : List (String × CtyValue) → List (String × CtyType)
  | [] => []
  | (name, v) :: rest => (name, v.ctyType) :: CtyValue.attrTypes rest
end

/-- `Type.IsListType()`. -/
def CtyType.IsListType : CtyType → Bool
  | .list _ => true
  | _ => false

/-- `Type.IsTupleType()`. -/
def CtyType.IsTupleType : CtyType → Bool
  | .tuple _ => true
  | _ => false

/-- `Type.IsMapType()`. -/
def CtyType.IsMapType : CtyType → Bool
  | .map _ => true
  | _ => false

/-- `Type.IsObjectType()`. -/
def CtyType.IsObjectType : CtyType → Bool
  | .object _ _ => true
  | _ => false

/-- `t.Equals(cty.List(cty.Number))`. -/
def CtyType.EqualsListOfNumber : CtyType → Bool
  | .list .number => true
  | _ => false

/-- `Value.IsNull()`. -/
def CtyValue.IsNull : CtyValue → Bool
  | .null _ => true
  | _ => false

/-- `Value.AsBigFloat()`; `none` when the call panics (the value is null or
not a number). -/
def CtyValue.AsBigFloat : CtyValue → Option BigFloat
  | .number x => some x
  | _ => none

/-- `Value.AsString()`; `none` when the call panics (the value is null or not
a string). -/
def CtyValue.AsString : CtyValue → Option String
  | .string s => some s
  | _ => none

/-- `cty.NumberIntVal(v)`. -/
def cty.NumberIntVal (v : Int) : CtyValue := .number (.fin v)

/-- `Value.LengthInt()`; `none` when the call panics. The length of a tuple
or object is read off its type, also for a null. -/
def CtyValue.LengthInt : CtyValue → Option Nat
  | .tuple elems => some elems.length
  | .object attrs => some attrs.length
  | .null (.tuple etys) => some etys.length
  | .null (.object atys _) => some atys.length
  | .list _ elems => some elems.length
  | .set _ elems => some elems.length
  | .map _ elems => some elems.length
  | _ => none

/-- The elements of a sequence paired with their index keys, counted from
`i`. -/
def CtyValue.indexed (i : Nat) : List CtyValue → List (CtyValue × CtyValue)
  | [] => []
  | v :: vs => (cty.NumberIntVal i, v) :: CtyValue.indexed (i + 1) vs

/-- `Value.ElementIterator()` run to the end: the `(key, value)` pairs in
iteration order; `none` when the call panics (null or not iterable). -/
def CtyValue.ElementIterator : CtyValue → Option (List (CtyValue × CtyValue))
  | .list _ elems => some (CtyValue.indexed 0 elems)
  | .tuple elems => some (CtyValue.indexed 0 elems)
  | .set _ elems => some (elems.map fun v => (v, v))
  | .map _ elems => some (elems.map fun kv => (.string kv.1, kv.2))
  | .object attrs => some (attrs.map fun kv => (.string kv.1, kv.2))
  | _ => none

/-- `Value.GetAttr(name)`; `none` when the call panics (null, not an object,
or no such attribute). -/
def CtyValue.GetAttr : CtyValue → String → Option CtyValue
  | .object attrs, name => attrs.lookup name
  | _, _ => none

/-- The first result of `(*big.Float).Int64()`: the number truncated towards
zero, and the nearest bound when it is outside the signed 64-bit range. -/
def BigFloat.Int64 : BigFloat → Int
  | .fin q =>
    let t := Int.tdiv q.num q.den
    if t < -(2 ^ 63) then -(2 ^ 63)
    else if t > 2 ^ 63 - 1 then 2 ^ 63 - 1
    else t
  | .inf true => -(2 ^ 63)
  | .inf false => 2 ^ 63 - 1

/-- `cty.ListVal(elems)` as `fromCtyString` calls it, on number values: the
list of element type number; `none` when the call panics (no elements). -/
def cty.ListVal (elems : List CtyValue) : Option CtyValue :=
  match elems with
  | [] => none
  | _ => some (.list .number elems)

/-! ### `convert.Convert` of go-cty, at the two target types of this package

`parseNumberVal` stands for `cty.ParseNumberVal`, the number parser applied to
a string that is converted to a number (`none` when it fails). -/

/-- Whether a value of the given type converts to `cty.Number`: it is a number
already, a string, or of the dynamic pseudo-type. -/
def convert.toNumberExists : CtyType → Bool
  | .number => true
  | .string => true
  | .dynamic => true
  | _ => false

/-- The conversion to `cty.Number` of a value whose type admits it: a number
stays, a string is parsed, a null becomes the null number. -/
def convert.toNumber (parseNumberVal : String → Option BigFloat) (path : cty.Path) :
    CtyValue → Except GoError CtyValue
  | .string s =>
    match parseNumberVal s with
    | some x => .ok (.number x)
    | none => .error (.numberRequired path)
  | .null _ => .ok (.null .number)
  | v => .ok v

/-- The element loop of a conversion to a list of numbers: the first element
that fails aborts. -/
def convert.elemsToNumber (parseNumberVal : String → Option BigFloat) :
    List (CtyValue × CtyValue) → Except GoError (List CtyValue)
  | [] => .ok []
  | (key, val) :: rest =>
    match convert.toNumber parseNumberVal [.IndexStep key] val with
    | .error err => .error err
    | .ok v =>
      match convert.elemsToNumber parseNumberVal rest with
      | .error err => .error err
      | .ok vs => .ok (v :: vs)

/-- The call `convert.Convert(in, cty.List(cty.Number))`. A list of numbers is
returned as it is. A list or set converts when its element type does, a tuple
when every element type does; a null of a convertible type becomes the null
list of numbers. Anything else is a type mismatch. -/
def convert.ConvertToNumberList (parseNumberVal : String → Option BigFloat)
    (v : CtyValue) : Except GoError CtyValue :=
  let want := CtyType.list .number
  let fail : Except GoError CtyValue := .error (.mismatch none v.ctyType want)
  let elems (es : List CtyValue) : Except GoError CtyValue :=
    match convert.elemsToNumber parseNumberVal (CtyValue.indexed 0 es) with
    | .error err => .error err
    | .ok vs => .ok (.list .number vs)
  match v with
  | .list .number _ => .ok v
  | .list ety es => if convert.toNumberExists ety then elems es else fail
  | .set ety es => if convert.toNumberExists ety then elems es else fail
  | .tuple es =>
    if es.all (fun e => convert.toNumberExists e.ctyType) then elems es else fail
  | .null (.list ety) => if convert.toNumberExists ety then .ok (.null want) else fail
  | .null (.set ety) => if convert.toNumberExists ety then .ok (.null want) else fail
  | .null (.tuple etys) =>
    if etys.all convert.toNumberExists then .ok (.null want) else fail
  | .null .dynamic => .ok (.null want)
  | _ => fail

/-- `ulimitType()`: the object type with a required number `soft` and an
optional number `hard`. -/
def ulimitType : CtyType :=
  .object [("soft", .number), ("hard", .number)] ["hard"]

/-- `ulimitType().WithoutOptionalAttributesDeep()`, the type of a converted
value. -/
def ulimitObjectType : CtyType :=
  .object [("soft", .number), ("hard", .number)] []

/-- The attribute loop of a conversion to `ulimitType`: attributes other than
`soft` and `hard` are dropped, the two are converted to numbers, the first
failure aborts. `step` builds the path step of an attribute. -/
def convert.attrsToNumber (parseNumberVal : String → Option BigFloat)
    (step : String → cty.PathStep) :
    List (String × CtyValue) → Except GoError (List (String × CtyValue))
  | [] => .ok []
  | (name, val) :: rest =>
    if name = "soft" ∨ name = "hard" then
      match convert.toNumber parseNumberVal [step name] val with
      | .error err => .error err
      | .ok v =>
        match convert.attrsToNumber parseNumberVal step rest with
        | .error err => .error err
        | .ok vs => .ok ((name, v) :: vs)
    else convert.attrsToNumber parseNumberVal step rest

/-- Whether an object type with the given attribute types converts to
`ulimitType`: `soft` is present and converts to a number, `hard` is absent or
converts to a number. -/
def convert.toUlimitTypeExists (atys : List (String × CtyType)) : Bool :=
  match atys.lookup "soft" with
  | none => false
  | some sty =>
    convert.toNumberExists sty &&
      match atys.lookup "hard" with
      | none => true
      | some hty => convert.toNumberExists hty

/-- Whether an object type with the given attribute types equals
`ulimitObjectType`: exactly the attributes `soft` and `hard`, both numbers. -/
def convert.equalsUlimitObjectType (atys : List (String × CtyType)) : Bool :=
  atys.length == 2 &&
    (match atys.lookup "soft" with
     | some .number => true
     | _ => false) &&
    (match atys.lookup "hard" with
     | some .number => true
     | _ => false)

/-- The object built at the end of a conversion to `ulimitType`: an absent
optional `hard` is the null number. -/
def convert.withOptionalHard (vs : List (String × CtyValue)) : CtyValue :=
  match vs.lookup "hard" with
  | none => .object (("hard", .null .number) :: vs)
  | some _ => .object vs

/-- The call `convert.Convert(in, ulimitType())`. An object of exactly the
target attributes is returned as it is. An object converts when its attribute
types allow it, a map when its element type converts to a number; a map
without the key `soft` fails. A null of a convertible type becomes the null
object. Anything else is a type mismatch. -/
def convert.ConvertToUlimitType (parseNumberVal : String → Option BigFloat)
    (v : CtyValue) : Except GoError CtyValue :=
  let fail : Except GoError CtyValue := .error (.mismatch none v.ctyType ulimitType)
  match v with
  | .object attrs =>
    if convert.equalsUlimitObjectType (CtyValue.attrTypes attrs) then .ok v
    else if convert.toUlimitTypeExists (CtyValue.attrTypes attrs) then
      match convert.attrsToNumber parseNumberVal .GetAttrStep attrs with
      | .error err => .error err
      | .ok vs => .ok (convert.withOptionalHard vs)
    else fail
  | .map ety elems =>
    if convert.toNumberExists ety then
      match convert.attrsToNumber parseNumberVal (fun k => .IndexStep (.string k)) elems with
      | .error err => .error err
      | .ok vs =>
        match vs.lookup "soft" with
        | none => .error (.missingAttribute [] "soft")
        | some _ => .ok (convert.withOptionalHard vs)
    else fail
  | .null (.object atys _) =>
    if convert.equalsUlimitObjectType atys then .ok v
    else if convert.toUlimitTypeExists atys then .ok (.null ulimitObjectType)
    else fail
  | .null (.map ety) =>
    if convert.toNumberExists ety then .ok (.null ulimitObjectType) else fail
  | .null .dynamic => .ok (.null ulimitObjectType)
  | _ => fail

/-! ### `ulimits_cty.go` -/

/-- The result of a method with a pointer receiver of state `σ` that returns
an `error`: it returns nil and leaves the receiver in state `s`, it returns an
error and leaves the receiver in state `s`, or it panics. -/
inductive Outcome (σ : Type) where
  | ok (s : σ)
  | error (err : GoError) (s : σ)
  | panic

/-- The loop `for itr.Next()` of `fromCtyNumberList` that collects the limits
of all elements for the error text; `none` when `AsBigFloat` panics. -/
def Ulimit.fromCtyNumberList.parts : List (CtyValue × CtyValue) → Option (List Int)
  | [] => some []
  | (_, elem) :: rest =>
    match elem.AsBigFloat with
    | none => none
    | some f =>
      match Ulimit.fromCtyNumberList.parts rest with
      | none => none
      | some vs => some (f.Int64 :: vs)

/-- The second half of `fromCtyNumberList`: the first element is the soft
limit, a second element the hard limit, which otherwise equals the soft
limit. -/
def Ulimit.fromCtyNumberList.assign (u : Ulimit) (v : CtyValue) : Outcome Ulimit :=
  match v.ElementIterator with
  | none => .panic
  | some [] => .panic
  | some ((_, soft) :: rest) =>
    match soft.AsBigFloat with
    | none => .panic
    | some f =>
      let u1 : Ulimit := { u with Soft := f.Int64 }
      match rest with
      | (_, hard) :: _ =>
        match hard.AsBigFloat with
        | none => .panic
        | some g => .ok { u1 with Hard := g.Int64 }
      | [] => .ok { u1 with Hard := u1.Soft }

/-- `func (u *Ulimit) fromCtyNumberList(in cty.Value) error`. -/
def Ulimit.fromCtyNumberList (u : Ulimit) (v : CtyValue) : Outcome Ulimit :=
  match v.LengthInt with
  | none => .panic
  | some n =>
    if n < 1 ∨ n > 2 then
      match v.ElementIterator with
      | none => .panic
      | some elems =>
        match Ulimit.fromCtyNumberList.parts elems with
        | none => .panic
        | some parts =>
          if n < 1 then .error (.tooFew parts) u
          else if n > 2 then .error (.tooMany parts) u
          else Ulimit.fromCtyNumberList.assign u v
    else Ulimit.fromCtyNumberList.assign u v

/-- `func (u *Ulimit) fromCtyNumber(in cty.Value) error`. -/
def Ulimit.fromCtyNumber (u : Ulimit) (v : CtyValue) : Outcome Ulimit :=
  match v.AsBigFloat with
  | none => .panic
  | some f =>
    let u1 : Ulimit := { u with Soft := f.Int64 }
    .ok { u1 with Hard := u1.Soft }

/-- The loop of `fromCtyString` over the parts: each is parsed with
`strconv.ParseInt`, the first failure is returned. -/
def Ulimit.fromCtyString.elems : List String → Except GoError (List CtyValue)
  | [] => .ok []
  | part :: rest =>
    match strconv.ParseInt part with
    | .error err => .error err
    | .ok n =>
      match Ulimit.fromCtyString.elems rest with
      | .error err => .error err
      | .ok vs => .ok (cty.NumberIntVal n :: vs)

/-- `func (u *Ulimit) fromCtyString(in cty.Value) error`. -/
def Ulimit.fromCtyString (u : Ulimit) (v : CtyValue) : Outcome Ulimit :=
  match v.AsString with
  | none => .panic
  | some s =>
    match Ulimit.fromCtyString.elems (strings.Split s ':') with
    | .error err => .error err u
    | .ok elems =>
      match cty.ListVal elems with
      | none => .panic
      | some l => Ulimit.fromCtyNumberList u l

/-- `func (u *Ulimit) fromCtyList(in cty.Value) error`. -/
def Ulimit.fromCtyList (parseNumberVal : String → Option BigFloat) (u : Ulimit)
    (v : CtyValue) : Outcome Ulimit :=
  if ¬ v.ctyType.EqualsListOfNumber then
    match convert.ConvertToNumberList parseNumberVal v with
    | .error err => .error err u
    | .ok want => Ulimit.fromCtyNumberList u want
  else Ulimit.fromCtyNumberList u v

/-- `func (u *Ulimit) fromCtyObject(in cty.Value) error`. -/
def Ulimit.fromCtyObject (parseNumberVal : String → Option BigFloat) (u : Ulimit)
    (v : CtyValue) : Outcome Ulimit :=
  match convert.ConvertToUlimitType parseNumberVal v with
  | .error err => .error err u
  | .ok v =>
    match v.GetAttr "soft" with
    | none => .panic
    | some soft =>
      match soft.AsBigFloat with
      | none => .panic
      | some f =>
        let u1 : Ulimit := { u with Soft := f.Int64 }
        match v.GetAttr "hard" with
        | none => .panic
        | some hard =>
          if ¬ hard.IsNull then
            match hard.AsBigFloat with
            | none => .panic
            | some g => .ok { u1 with Hard := g.Int64 }
          else .ok { u1 with Hard := u1.Soft }

/-- `func (u *Ulimit) FromCtyValue(in cty.Value, p cty.Path) error`. -/
def Ulimit.FromCtyValue (parseNumberVal : String → Option BigFloat) (u : Ulimit)
    (v : CtyValue) (_p : cty.Path) : Outcome Ulimit :=
  match v.ctyType with
  | .number => Ulimit.fromCtyNumber u v
  | .string => Ulimit.fromCtyString u v
  | inType =>
    if inType.IsListType ∨ inType.IsTupleType then Ulimit.fromCtyList parseNumberVal u v
    else Ulimit.fromCtyObject parseNumberVal u v

/-- The loop of `Ulimits.fromCtyList`: an element that is not a string is a
type mismatch, a string is parsed with `units.ParseUlimit` and stored under
its name; the receiver `u` is untouched. -/
def Ulimits.fromCtyList.loop (parseUlimit : String → Except GoError units.Ulimit)
    (u : Ulimits) (p : cty.Path) :
    List (CtyValue × CtyValue) → UlimitMap → Outcome Ulimits
  | [], vals => .ok (some vals)
  | (_, val) :: rest, vals =>
    match val.ctyType with
    | .string =>
      match val.AsString with
      | none => .panic
      | some s =>
        match parseUlimit s with
        | .error err => .error err u
        | .ok ulimit =>
          Ulimits.fromCtyList.loop parseUlimit u p rest
            (vals.insert ulimit.Name (some { Soft := ulimit.Soft, Hard := ulimit.Hard }))
    | ty => .error (.mismatch (some p) ty .string) u

/-- `func (u *Ulimits) fromCtyList(in cty.Value, p cty.Path) error`. -/
def Ulimits.fromCtyList (parseUlimit : String → Except GoError units.Ulimit)
    (u : Ulimits) (v : CtyValue) (p : cty.Path) : Outcome Ulimits :=
  match v.LengthInt with
  | none => .panic
  | some _ =>
    match v.ElementIterator with
    | none => .panic
    | some elems => Ulimits.fromCtyList.loop parseUlimit u p elems ∅

/-- The loop of `Ulimits.fromCtyMap`: each nested value is decoded into a
fresh `Ulimit` and stored under its key; the receiver `u` is untouched. -/
def Ulimits.fromCtyMap.loop (parseNumberVal : String → Option BigFloat)
    (u : Ulimits) (p : cty.Path) :
    List (CtyValue × CtyValue) → UlimitMap → Outcome Ulimits
  | [], vals => .ok (some vals)
  | (key, val) :: rest, vals =>
    match Ulimit.FromCtyValue parseNumberVal { Hard := 0, Soft := 0 } val p with
    | .error err _ => .error err u
    | .panic => .panic
    | .ok ulimit =>
      match key.AsString with
      | none => .panic
      | some k =>
        Ulimits.fromCtyMap.loop parseNumberVal u p rest (vals.insert k (some ulimit))

/-- `func (u *Ulimits) fromCtyMap(in cty.Value, p cty.Path) error`. -/
def Ulimits.fromCtyMap (parseNumberVal : String → Option BigFloat)
    (u : Ulimits) (v : CtyValue) (p : cty.Path) : Outcome Ulimits :=
  match v.LengthInt with
  | none => .panic
  | some _ =>
    match v.ElementIterator with
    | none => .panic
    | some elems => Ulimits.fromCtyMap.loop parseNumberVal u p elems ∅

/-- `func (u *Ulimits) FromCtyValue(in cty.Value, p cty.Path) error`. -/
def Ulimits.FromCtyValue (parseUlimit : String → Except GoError units.Ulimit)
    (parseNumberVal : String → Option BigFloat)
    (u : Ulimits) (v : CtyValue) (p : cty.Path) : Outcome Ulimits :=
  if v.ctyType.IsListType ∨ v.ctyType.IsTupleType then
    Ulimits.fromCtyList parseUlimit u v p
  else if v.ctyType.IsMapType ∨ v.ctyType.IsObjectType then
    Ulimits.fromCtyMap parseNumberVal u v p
  else .error (.mismatch (some p) v.ctyType (.map ulimitType)) u

/-! ### Encoding (`ToCtyValue`) and the runtime descriptor -/

mutual
/-- `Type.Equals`: the same kind of type with equal parts. Attribute lists are
compared in order; the object types met here list their attributes by name. -/
def CtyType.Equals : CtyType → CtyType → Bool
  | .number, .number => true
  | .string, .string => true
  | .bool, .bool => true
  | .dynamic, .dynamic => true
  | .list a, .list b => CtyType.Equals a b
  | .set a, .set b => CtyType.Equals a b
  | .map a, .map b => CtyType.Equals a b
  | .tuple as, .tuple bs => CtyType.EqualsAll as bs
  | .object as oa, .object bs ob => CtyType.EqualsAttrs as bs && oa == ob
  | _, _ => false
/-- `Equals` on the element types of two tuple types. -/
def CtyType.EqualsAll : List CtyType → List CtyType → Bool
  | [], [] => true
  | a :: as, b :: bs => CtyType.Equals a b && CtyType.EqualsAll as bs
  | _, _ => false
/-- `Equals` on the attribute types of two object types. -/
def CtyType.EqualsAttrs : List (String × CtyType) → List (String × CtyType) → Bool
  | [], [] => true
  | (ka, a) :: as, (kb, b) :: bs =>
    ka == kb && CtyType.Equals a b && CtyType.EqualsAttrs as bs
  | _, _ => false
end

/-- The comparison `ty == cty.DynamicPseudoType`. -/
def CtyType.isDynamic : CtyType → Bool
  | .dynamic => true
  | _ => false

/-- The loop of `cty.MapVal` over the Go map it is given: the element type is
the type of the first value that is not of the dynamic pseudo-type, and every
later such value must have an equal type; `none` when the call panics
(inconsistent element types). -/
def cty.MapVal.elementType : List (String × CtyValue) → CtyType → Option CtyType
  | [], ety => some ety
  | (_, val) :: rest, ety =>
    if ety.isDynamic then cty.MapVal.elementType rest val.ctyType
    else if ¬ val.ctyType.isDynamic ∧ ¬ ety.Equals val.ctyType then none
    else cty.MapVal.elementType rest ety

/-- `cty.MapVal(vals)`: the map value with the given entries, which it
iterates by key, in the lexicographic order of the characters; `none` when the
call panics (no entries, or inconsistent element types). Keys are taken to be
normalized text, which `MapVal` stores as it is. -/
def cty.MapVal (vals : List (String × CtyValue)) : Option CtyValue :=
  match vals with
  | [] => none
  | _ =>
    match cty.MapVal.elementType vals .dynamic with
    | none => none
    | some ety => some (.map ety (vals.insertionSort fun a b => a.1.data < b.1.data))

/-- `cty.MapValEmpty(ety)`. -/
def cty.MapValEmpty (ety : CtyType) : CtyValue := .map ety []

/-- `func (u *Ulimit) ToCtyValue() cty.Value`; `none` is the nil receiver. The
object value lists its attributes by name. -/
def Ulimit.ToCtyValue (u : Option Ulimit) : CtyValue :=
  match u with
  | none => .null (.map ulimitType)
  | some ul => .object [("hard", cty.NumberIntVal ul.Hard), ("soft", cty.NumberIntVal ul.Soft)]

/-- `func (u Ulimits) ToCtyValue() cty.Value`; `none` when the call panics
(inside `cty.MapVal`). -/
def Ulimits.ToCtyValue (u : Ulimits) : Option CtyValue :=
  if u.entries.length = 0 then some (cty.MapValEmpty ulimitType)
  else cty.MapVal (u.entries.map fun kv => (kv.1, Ulimit.ToCtyValue kv.2))

/-- The struct `container.Ulimit` of the docker API, the record of the runtime
descriptor. -/
structure container.Ulimit where
  Name : String
  Hard : Int
  Soft : Int
deriving DecidableEq, Repr

/-- The map `map[string]*container.Ulimit` a `*dockeropts.UlimitOpt` wraps;
`NewUlimitOpt` keeps the map it is given. -/
abbrev dockeropts.UlimitOpt := AList (fun _ : String => container.Ulimit)

/-- The loop of `ToUlimitOpt`: every entry is stored as a record carrying its
name; `none` when the loop panics (reading the limits of a nil entry). -/
def Ulimits.ToUlimitOpt.loop :
    List (Sigma fun _ : String => Option Ulimit) → dockeropts.UlimitOpt →
      Option dockeropts.UlimitOpt
  | [], ref => some ref
  | ⟨_, none⟩ :: _, _ => none
  | ⟨name, some ulimit⟩ :: rest, ref =>
    Ulimits.ToUlimitOpt.loop rest
      (ref.insert name { Name := name, Soft := ulimit.Soft, Hard := ulimit.Hard })

/-- `func (u Ulimits) ToUlimitOpt() *dockeropts.UlimitOpt`; `none` when the
call panics. -/
def Ulimits.ToUlimitOpt (u : Ulimits) : Option dockeropts.UlimitOpt :=
  Ulimits.ToUlimitOpt.loop u.entries ∅

/-- The number `q` truncated toward zero: the greatest integer below a
non-negative number, the least integer above a negative one. -/
def truncateTowardZero (q : ℚ) : Int :=
  if 0 ≤ q then ⌊q⌋ else ⌈q⌉

/-! ## Theorems -/

/-- Storing a list of entries with pairwise distinct keys into a map: afterwards
a key of the list reads back its entry, any other key reads what it read
before. -/
theorem foldl_insert_lookup (l : List (Sigma fun _ : String => Option Ulimit))
    (hl : l.NodupKeys) (m : UlimitMap) (k : String) :
    (l.foldl (fun acc kv => acc.insert kv.1 kv.2) m).lookup k =
      match l.dlookup k with
      | some v => some v
      | none => m.lookup k := by
  induction l generalizing m with
  | nil => simp
  | cons kv l ih =>
    obtain ⟨k', v'⟩ := kv
    rw [List.nodupKeys_cons] at hl
    rw [List.foldl_cons, ih hl.2]
    by_cases hk : k = k'
    · subst hk
      have hnone : l.dlookup k = none := by
        rw [List.dlookup_eq_none]; exact hl.1
      simp [hnone, AList.lookup_insert]
    · rw [List.dlookup_cons_ne l (Sigma.mk k' v') hk]
      cases hd : l.dlookup k with
      | some v => simp
      | none => simp [AList.lookup_insert_ne hk]

/-- C1: `Ulimits.Merge(b, o)` returns a non-nil collection `r` in which every
key of `o` reads `o[k]`, every other key of `b` reads `b[k]`, and no other
name is a key; a nil base gives the same result as an empty base. -/
theorem Ulimits.Merge_spec (b o : Ulimits) :
    (∃ r : UlimitMap, Ulimits.Merge b o = some r ∧
      ∀ k : String,
        (∀ v, o.lookup k = some v → r.lookup k = some v) ∧
        (o.lookup k = none → ∀ v, b.lookup k = some v → r.lookup k = some v) ∧
        (o.lookup k = none → b.lookup k = none → r.lookup k = none)) ∧
    Ulimits.Merge none o = Ulimits.Merge (some ∅) o := by
  refine ⟨⟨_, rfl, fun k => ?_⟩, rfl⟩
  have hnd : o.entries.NodupKeys := by
    cases o with
    | none => exact List.nodupKeys_nil
    | some m => exact m.nodupKeys
  have hlk : o.lookup k = o.entries.dlookup k := by
    cases o with
    | none => rfl
    | some m => rfl
  have hb : ∀ u0 : UlimitMap, (u0 = match b with | none => ∅ | some m => m) →
      u0.lookup k = b.lookup k := by
    intro u0 hu0
    cases b with
    | none => subst hu0; rfl
    | some m => subst hu0; rfl
  rw [foldl_insert_lookup _ hnd, ← hlk, hb _ rfl]
  refine ⟨fun v hv => ?_, fun hn v hv => ?_, fun hn hbn => ?_⟩
  · simp [hv]
  · simp [hn, hv]
  · simp [hn, hbn]

/-- The loop of `ParseUlimits` on tokens that all parse stores the parsed
limits one after the other, in token order. -/
theorem ParseUlimits.loop_ok (parseUlimit : String → Except GoError units.Ulimit)
    (s : List String) (us : List units.Ulimit)
    (h : List.Forall₂ (fun tok u => parseUlimit tok = .ok u) s us) (m0 : UlimitMap) :
    ParseUlimits.loop parseUlimit s m0 =
      (some (us.foldl (fun acc u =>
        acc.insert u.Name (some { Soft := u.Soft, Hard := u.Hard })) m0), none) := by
  induction h generalizing m0 with
  | nil => rfl
  | cons hd _ ih => simp only [ParseUlimits.loop, hd, List.foldl_cons, ih]

/-- Storing limits under names other than `k` leaves the entry of `k` as it
was. -/
theorem foldl_store_lookup_ne (post : List units.Ulimit) (k : String)
    (hk : ∀ w ∈ post, w.Name ≠ k) (m : UlimitMap) :
    (post.foldl (fun acc u =>
        acc.insert u.Name (some { Soft := u.Soft, Hard := u.Hard })) m).lookup k =
      m.lookup k := by
  induction post generalizing m with
  | nil => rfl
  | cons w post ih =>
    rw [List.foldl_cons, ih (fun x hx => hk x (List.mem_cons_of_mem _ hx))]
    exact AList.lookup_insert_ne (fun h => hk w (List.mem_cons_self _ _) h.symm)

/-- The keys after storing a list of limits are the keys before and the names
stored. -/
theorem foldl_store_mem (us : List units.Ulimit) (k : String) (m : UlimitMap) :
    k ∈ us.foldl (fun acc u =>
        acc.insert u.Name (some { Soft := u.Soft, Hard := u.Hard })) m ↔
      k ∈ m ∨ ∃ u ∈ us, u.Name = k := by
  induction us generalizing m with
  | nil => simp
  | cons w us ih =>
    rw [List.foldl_cons, ih, AList.mem_insert]
    constructor
    · rintro ((h | h) | ⟨u, hu, h⟩)
      · exact Or.inr ⟨w, List.mem_cons_self _ _, h.symm⟩
      · exact Or.inl h
      · exact Or.inr ⟨u, List.mem_cons_of_mem _ hu, h⟩
    · rintro (h | ⟨u, hu, h⟩)
      · exact Or.inl (Or.inr h)
      · rcases List.mem_cons.1 hu with rfl | hu
        · exact Or.inl (Or.inl h.symm)
        · exact Or.inr ⟨u, hu, h⟩

/-- C2: when every token parses, `ParseUlimits` returns a non-nil collection and
no error; its keys are exactly the parsed names, and each name holds the soft
and hard limit of the last token carrying it. -/
theorem ParseUlimits_last_wins (parseUlimit : String → Except GoError units.Ulimit)
    (s : List String) (us : List units.Ulimit)
    (h : List.Forall₂ (fun tok u => parseUlimit tok = .ok u) s us) :
    ∃ m : UlimitMap, ParseUlimits parseUlimit s = (some m, none) ∧
      (∀ k : String, k ∈ m ↔ ∃ u ∈ us, u.Name = k) ∧
      (∀ (pre : List units.Ulimit) (u : units.Ulimit) (post : List units.Ulimit),
        us = pre ++ u :: post → (∀ w ∈ post, w.Name ≠ u.Name) →
        m.lookup u.Name = some (some { Soft := u.Soft, Hard := u.Hard })) := by
  refine ⟨_, ParseUlimits.loop_ok parseUlimit s us h ∅, fun k => ?_, ?_⟩
  · rw [foldl_store_mem]
    simp [AList.not_mem_empty]
  · intro pre u post hus hpost
    subst hus
    rw [List.foldl_append, List.foldl_cons, foldl_store_lookup_ne post u.Name hpost]
    exact AList.lookup_insert _

/-- C2, at three tokens of which the first and the last name `nofile`. -/
theorem ParseUlimits_last_wins_witness :
    ∃ m : UlimitMap,
      ParseUlimits units.ParseUlimit ["nofile=1024:2048", "nproc=100", "nofile=1:2"] =
        (some m, none) ∧
      (∀ k : String, k ∈ m ↔
        ∃ u ∈ [(⟨"nofile", 2048, 1024⟩ : units.Ulimit), ⟨"nproc", 100, 100⟩,
          ⟨"nofile", 2, 1⟩], u.Name = k) ∧
      (∀ (pre : List units.Ulimit) (u : units.Ulimit) (post : List units.Ulimit),
        [(⟨"nofile", 2048, 1024⟩ : units.Ulimit), ⟨"nproc", 100, 100⟩, ⟨"nofile", 2, 1⟩] =
          pre ++ u :: post → (∀ w ∈ post, w.Name ≠ u.Name) →
        m.lookup u.Name = some (some { Soft := u.Soft, Hard := u.Hard })) :=
  ParseUlimits_last_wins units.ParseUlimit _ _
    (List.Forall₂.cons rfl (List.Forall₂.cons rfl (List.Forall₂.cons rfl List.Forall₂.nil)))

/-- The loop of `ParseUlimits` stops at the first token that fails, whatever it
has stored so far. -/
theorem ParseUlimits.loop_error (parseUlimit : String → Except GoError units.Ulimit)
    (pre : List String) (tok : String) (post : List String) (err : GoError)
    (hpre : ∀ t ∈ pre, ∃ u, parseUlimit t = .ok u) (htok : parseUlimit tok = .error err)
    (m0 : UlimitMap) :
    ParseUlimits.loop parseUlimit (pre ++ tok :: post) m0 = (none, some err) := by
  induction pre generalizing m0 with
  | nil => simp only [List.nil_append, ParseUlimits.loop, htok]
  | cons t pre ih =>
    obtain ⟨u, hu⟩ := hpre t (List.mem_cons_self _ _)
    simp only [List.cons_append, ParseUlimits.loop, hu]
    exact ih (fun x hx => hpre x (List.mem_cons_of_mem _ hx)) _

/-- Every token of a list that parses entirely parses. -/
theorem forall₂_parse_mem (parseUlimit : String → Except GoError units.Ulimit)
    (s : List String) (us : List units.Ulimit)
    (h : List.Forall₂ (fun tok u => parseUlimit tok = .ok u) s us) :
    ∀ tok ∈ s, ∃ u, parseUlimit tok = .ok u := by
  induction h with
  | nil => intro tok htok; cases htok
  | cons hd _ ih =>
    intro tok htok
    rcases List.mem_cons.1 htok with rfl | htok
    · exact ⟨_, hd⟩
    · exact ih tok htok

/-- A list of tokens either parses entirely or splits at a first failing
token. -/
theorem tokens_parse_or_first_failure
    (parseUlimit : String → Except GoError units.Ulimit) (s : List String) :
    (∃ us, List.Forall₂ (fun tok u => parseUlimit tok = .ok u) s us) ∨
    ∃ pre tok post err, s = pre ++ tok :: post ∧
      (∀ t ∈ pre, ∃ u, parseUlimit t = .ok u) ∧ parseUlimit tok = .error err := by
  induction s with
  | nil => exact Or.inl ⟨[], List.Forall₂.nil⟩
  | cons t s ih =>
    cases ht : parseUlimit t with
    | error err => exact Or.inr ⟨[], t, s, err, rfl, by simp, ht⟩
    | ok u =>
      rcases ih with ⟨us, hus⟩ | ⟨pre, tok, post, err, hs, hpre, htok⟩
      · exact Or.inl ⟨u :: us, List.Forall₂.cons ht hus⟩
      · refine Or.inr ⟨t :: pre, tok, post, err, by rw [hs]; rfl, ?_, htok⟩
        intro x hx
        rcases List.mem_cons.1 hx with rfl | hx
        · exact ⟨u, ht⟩
        · exact hpre x hx

/-- C3: `ParseUlimits` returns an error exactly when some token fails to
parse; the error is then the one of the first failing token and the returned
collection is nil. -/
theorem ParseUlimits_fail_fast (parseUlimit : String → Except GoError units.Ulimit)
    (s : List String) :
    ((ParseUlimits parseUlimit s).2 ≠ none ↔
      ∃ tok ∈ s, ∃ err, parseUlimit tok = .error err) ∧
    (∀ (pre : List String) (tok : String) (post : List String) (err : GoError),
      s = pre ++ tok :: post → (∀ t ∈ pre, ∃ u, parseUlimit t = .ok u) →
      parseUlimit tok = .error err →
      ParseUlimits parseUlimit s = (none, some err)) := by
  constructor
  · rcases tokens_parse_or_first_failure parseUlimit s with
      ⟨us, hus⟩ | ⟨pre, tok, post, err, hs, hpre, htok⟩
    · have hok := ParseUlimits.loop_ok parseUlimit s us hus ∅
      constructor
      · intro hne
        exact absurd (by rw [ParseUlimits, hok]) hne
      · rintro ⟨tok, htok, err, herr⟩
        obtain ⟨u, hu⟩ := forall₂_parse_mem parseUlimit s us hus tok htok
        rw [hu] at herr
        cases herr
    · subst hs
      have := ParseUlimits.loop_error parseUlimit pre tok post err hpre htok ∅
      constructor
      · intro _
        exact ⟨tok, by simp, err, htok⟩
      · intro _
        rw [ParseUlimits, this]
        simp
  · intro pre tok post err hs hpre htok
    subst hs
    exact ParseUlimits.loop_error parseUlimit pre tok post err hpre htok ∅

/-- The loop of `Ulimits.fromCtyList` over string elements runs as the loop of
`ParseUlimits` over the strings. -/
theorem Ulimits.fromCtyList.loop_strings
    (parseUlimit : String → Except GoError units.Ulimit) (u : Ulimits) (p : cty.Path)
    (ss : List String) (i : Nat) (vals : UlimitMap) :
    Ulimits.fromCtyList.loop parseUlimit u p
        (CtyValue.indexed i (ss.map CtyValue.string)) vals =
      match ParseUlimits.loop parseUlimit ss vals with
      | (m, none) => Outcome.ok m
      | (_, some err) => Outcome.error err u := by
  induction ss generalizing i vals with
  | nil => rfl
  | cons s ss ih =>
    simp only [List.map_cons, CtyValue.indexed, Ulimits.fromCtyList.loop,
      CtyValue.ctyType, CtyValue.AsString, ParseUlimits.loop]
    cases parseUlimit s with
    | error err => rfl
    | ok ul => exact ih _ _

/-- C4: collection-level decoding of the list (or tuple) of the strings `ss`
agrees with `ParseUlimits(ss)`: it returns the same error leaving the receiver
as it was, or succeeds and leaves the same collection in the receiver; the
list of `nofile=1024:2048` and `nproc=100` gives nofile 1024/2048 and nproc
100/100. -/
theorem Ulimits.FromCtyValue_strings_eq_ParseUlimits
    (parseUlimit : String → Except GoError units.Ulimit)
    (parseNumberVal : String → Option BigFloat) (u : Ulimits) (p : cty.Path)
    (ss : List String) :
    (Ulimits.FromCtyValue parseUlimit parseNumberVal u
        (.list .string (ss.map CtyValue.string)) p =
      match ParseUlimits parseUlimit ss with
      | (m, none) => Outcome.ok m
      | (_, some err) => Outcome.error err u) ∧
    (Ulimits.FromCtyValue parseUlimit parseNumberVal u
        (.tuple (ss.map CtyValue.string)) p =
      match ParseUlimits parseUlimit ss with
      | (m, none) => Outcome.ok m
      | (_, some err) => Outcome.error err u) ∧
    (∃ m : UlimitMap,
      Ulimits.FromCtyValue units.ParseUlimit parseNumberVal u
        (.list .string [.string "nofile=1024:2048", .string "nproc=100"]) p =
        Outcome.ok (some m) ∧
      m.lookup "nofile" = some (some { Soft := 1024, Hard := 2048 }) ∧
      m.lookup "nproc" = some (some { Soft := 100, Hard := 100 }) ∧
      ∀ k : String, k ∈ m → k = "nofile" ∨ k = "nproc") := by
  refine ⟨?_, ?_, ?_⟩
  · simp only [Ulimits.FromCtyValue, CtyValue.ctyType, CtyType.IsListType, true_or,
      if_true, Ulimits.fromCtyList, CtyValue.LengthInt, CtyValue.ElementIterator]
    exact Ulimits.fromCtyList.loop_strings parseUlimit u p ss 0 ∅
  · simp only [Ulimits.FromCtyValue, CtyValue.ctyType, CtyType.IsTupleType, or_true,
      if_true, Ulimits.fromCtyList, CtyValue.LengthInt, CtyValue.ElementIterator]
    exact Ulimits.fromCtyList.loop_strings parseUlimit u p ss 0 ∅
  · refine ⟨_, rfl, by decide, by decide, ?_⟩
    intro k hk
    rw [AList.mem_insert, AList.mem_insert] at hk
    rcases hk with h | h | h
    · exact Or.inr h
    · exact Or.inl h
    · exact absurd h (AList.not_mem_empty k)

/-- The loop of `Ulimits.fromCtyMap` succeeds when every nested value
decodes. -/
theorem Ulimits.fromCtyMap.loop_ok_of_all (parseNumberVal : String → Option BigFloat)
    (u : Ulimits) (p : cty.Path) (elems : List (String × CtyValue))
    (h : ∀ kv ∈ elems, ∃ ul,
      Ulimit.FromCtyValue parseNumberVal { Hard := 0, Soft := 0 } kv.2 p = Outcome.ok ul)
    (vals : UlimitMap) :
    ∃ r, Ulimits.fromCtyMap.loop parseNumberVal u p
      (elems.map fun kv => (CtyValue.string kv.1, kv.2)) vals = Outcome.ok r := by
  induction elems generalizing vals with
  | nil => exact ⟨_, rfl⟩
  | cons kv elems ih =>
    obtain ⟨ul, hul⟩ := h kv (List.mem_cons_self _ _)
    simp only [List.map_cons, Ulimits.fromCtyMap.loop, hul, CtyValue.AsString]
    exact ih (fun x hx => h x (List.mem_cons_of_mem _ hx)) _

/-- What a successful run of the loop of `Ulimits.fromCtyMap` leaves: every
nested value decoded, each key holding its decoded value, the other keys as
they were. -/
theorem Ulimits.fromCtyMap.loop_ok_inv (parseNumberVal : String → Option BigFloat)
    (u : Ulimits) (p : cty.Path) (elems : List (String × CtyValue))
    (hnd : (elems.map Prod.fst).Nodup) (vals : UlimitMap) (r : Ulimits)
    (hr : Ulimits.fromCtyMap.loop parseNumberVal u p
      (elems.map fun kv => (CtyValue.string kv.1, kv.2)) vals = Outcome.ok r) :
    ∃ m : UlimitMap, r = some m ∧
      (∀ k : String, k ∈ m ↔ k ∈ vals ∨ k ∈ elems.map Prod.fst) ∧
      (∀ kv ∈ elems, ∃ ul,
        Ulimit.FromCtyValue parseNumberVal { Hard := 0, Soft := 0 } kv.2 p = Outcome.ok ul ∧
        m.lookup kv.1 = some (some ul)) ∧
      (∀ k : String, k ∉ elems.map Prod.fst → m.lookup k = vals.lookup k) := by
  induction elems generalizing vals with
  | nil =>
    simp only [List.map_nil, Ulimits.fromCtyMap.loop, Outcome.ok.injEq] at hr
    exact ⟨vals, hr.symm, by simp, by simp, fun _ _ => rfl⟩
  | cons kv elems ih =>
    obtain ⟨k0, v0⟩ := kv
    rw [List.map_cons, List.nodup_cons] at hnd
    simp only [List.map_cons, Ulimits.fromCtyMap.loop] at hr
    cases hdec : Ulimit.FromCtyValue parseNumberVal { Hard := 0, Soft := 0 } v0 p with
    | error err s => rw [hdec] at hr; cases hr
    | panic => rw [hdec] at hr; cases hr
    | ok ul =>
      rw [hdec] at hr
      simp only [CtyValue.AsString] at hr
      obtain ⟨m, hm, hkeys, hall, hother⟩ := ih hnd.2 _ hr
      refine ⟨m, hm, fun k => ?_, ?_, ?_⟩
      · rw [hkeys, AList.mem_insert, List.map_cons, List.mem_cons]
        tauto
      · intro kv hkv
        rcases List.mem_cons.1 hkv with rfl | hkv
        · refine ⟨ul, hdec, ?_⟩
          rw [hother k0 hnd.1]
          exact AList.lookup_insert _
        · exact hall kv hkv
      · intro k hk
        rw [List.map_cons, List.mem_cons, not_or] at hk
        rw [hother k hk.2]
        exact AList.lookup_insert_ne hk.1

/-- C5: for a map or an object with pairwise distinct keys, collection-level
decoding succeeds exactly when the scalar decoder (into a fresh `Ulimit`)
succeeds on every nested value; the receiver then holds exactly the keys of
the value, each with the scalar decoding of its nested value. -/
theorem Ulimits.FromCtyValue_map_spec
    (parseUlimit : String → Except GoError units.Ulimit)
    (parseNumberVal : String → Option BigFloat) (u : Ulimits) (p : cty.Path)
    (ety : CtyType) (elems : List (String × CtyValue))
    (hnd : (elems.map Prod.fst).Nodup) (v : CtyValue)
    (hv : v = CtyValue.map ety elems ∨ v = CtyValue.object elems) :
    ((∃ r, Ulimits.FromCtyValue parseUlimit parseNumberVal u v p = Outcome.ok r) ↔
      ∀ kv ∈ elems, ∃ ul,
        Ulimit.FromCtyValue parseNumberVal { Hard := 0, Soft := 0 } kv.2 p = Outcome.ok ul) ∧
    (∀ r, Ulimits.FromCtyValue parseUlimit parseNumberVal u v p = Outcome.ok r →
      ∃ m : UlimitMap, r = some m ∧
        (∀ k : String, k ∈ m ↔ k ∈ elems.map Prod.fst) ∧
        (∀ kv ∈ elems, ∃ ul,
          Ulimit.FromCtyValue parseNumberVal { Hard := 0, Soft := 0 } kv.2 p =
            Outcome.ok ul ∧
          m.lookup kv.1 = some (some ul))) := by
  have hrun : Ulimits.FromCtyValue parseUlimit parseNumberVal u v p =
      Ulimits.fromCtyMap.loop parseNumberVal u p
        (elems.map fun kv => (CtyValue.string kv.1, kv.2)) ∅ := by
    rcases hv with rfl | rfl
    · simp [Ulimits.FromCtyValue, CtyValue.ctyType, CtyType.IsListType,
        CtyType.IsTupleType, CtyType.IsMapType, Ulimits.fromCtyMap, CtyValue.LengthInt,
        CtyValue.ElementIterator]
    · simp [Ulimits.FromCtyValue, CtyValue.ctyType, CtyType.IsListType,
        CtyType.IsTupleType, CtyType.IsObjectType, Ulimits.fromCtyMap, CtyValue.LengthInt,
        CtyValue.ElementIterator]
  rw [hrun]
  refine ⟨⟨?_, fun h => Ulimits.fromCtyMap.loop_ok_of_all parseNumberVal u p elems h ∅⟩, ?_⟩
  · rintro ⟨r, hr⟩ kv hkv
    obtain ⟨m, _, _, hall, _⟩ :=
      Ulimits.fromCtyMap.loop_ok_inv parseNumberVal u p elems hnd ∅ r hr
    obtain ⟨ul, hul, _⟩ := hall kv hkv
    exact ⟨ul, hul⟩
  · intro r hr
    obtain ⟨m, hm, hkeys, hall, _⟩ :=
      Ulimits.fromCtyMap.loop_ok_inv parseNumberVal u p elems hnd ∅ r hr
    refine ⟨m, hm, fun k => ?_, hall⟩
    rw [hkeys]
    simp [AList.not_mem_empty]

/-- C5, at the object with `nofile = 1024` and `nproc = "100:200"`. -/
theorem Ulimits.FromCtyValue_map_spec_witness :
    ((∃ r, Ulimits.FromCtyValue units.ParseUlimit (fun _ => none) none
        (CtyValue.object [("nofile", cty.NumberIntVal 1024), ("nproc", .string "100:200")])
        [] = Outcome.ok r) ↔
      ∀ kv ∈ [("nofile", cty.NumberIntVal 1024), ("nproc", CtyValue.string "100:200")],
        ∃ ul, Ulimit.FromCtyValue (fun _ => none) { Hard := 0, Soft := 0 } kv.2 [] =
          Outcome.ok ul) ∧
    (∀ r, Ulimits.FromCtyValue units.ParseUlimit (fun _ => none) none
        (CtyValue.object [("nofile", cty.NumberIntVal 1024), ("nproc", .string "100:200")])
        [] = Outcome.ok r →
      ∃ m : UlimitMap, r = some m ∧
        (∀ k : String, k ∈ m ↔
          k ∈ [("nofile", cty.NumberIntVal 1024),
            ("nproc", CtyValue.string "100:200")].map Prod.fst) ∧
        (∀ kv ∈ [("nofile", cty.NumberIntVal 1024), ("nproc", CtyValue.string "100:200")],
          ∃ ul, Ulimit.FromCtyValue (fun _ => none) { Hard := 0, Soft := 0 } kv.2 [] =
            Outcome.ok ul ∧
          m.lookup kv.1 = some (some ul))) :=
  Ulimits.FromCtyValue_map_spec units.ParseUlimit (fun _ => none) none [] .number
    [("nofile", cty.NumberIntVal 1024), ("nproc", .string "100:200")] (by decide) _
    (Or.inr rfl)

/-- An integer within the signed 64-bit range converts to itself. -/
theorem BigFloat.Int64_intCast (n : Int) (hlo : -(2 ^ 63) ≤ n) (hhi : n ≤ 2 ^ 63 - 1) :
    BigFloat.Int64 (.fin (n : ℚ)) = n := by
  simp only [BigFloat.Int64, Rat.intCast_num, Rat.intCast_den, Nat.cast_one, Int.tdiv_one]
  rw [if_neg (by omega), if_neg (by omega)]

/-- C6: scalar-level decoding of the number value of a signed 64-bit integer
`n` succeeds with soft = hard = `n`. -/
theorem Ulimit.FromCtyValue_int64_number (parseNumberVal : String → Option BigFloat)
    (u : Ulimit) (p : cty.Path) (n : Int) (hlo : -(2 ^ 63) ≤ n) (hhi : n ≤ 2 ^ 63 - 1) :
    Ulimit.FromCtyValue parseNumberVal u (cty.NumberIntVal n) p =
      Outcome.ok { Soft := n, Hard := n } := by
  simp only [Ulimit.FromCtyValue, cty.NumberIntVal, CtyValue.ctyType, Ulimit.fromCtyNumber,
    CtyValue.AsBigFloat, BigFloat.Int64_intCast n hlo hhi]

/-- C6, at the number 1024. -/
theorem Ulimit.FromCtyValue_int64_number_witness :
    Ulimit.FromCtyValue (fun _ => none) { Hard := 7, Soft := 3 } (cty.NumberIntVal 1024) [] =
      Outcome.ok { Soft := 1024, Hard := 1024 } :=
  Ulimit.FromCtyValue_int64_number (fun _ => none) { Hard := 7, Soft := 3 } [] 1024
    (by decide) (by decide)

/-- The character of a decimal digit is a digit character with that value. -/
theorem digitChar_isDigit (d : Nat) (hd : d < 10) :
    (Nat.digitChar d).isDigit = true ∧ (Nat.digitChar d).toNat - 48 = d := by
  interval_cases d <;> exact ⟨rfl, rfl⟩

/-- A digit character is neither a sign nor a colon. -/
theorem isDigit_ne_sign (c : Char) (hc : c.isDigit = true) :
    c ≠ '+' ∧ c ≠ '-' ∧ c ≠ ':' := by
  refine ⟨?_, ?_, ?_⟩ <;> rintro rfl <;> revert hc <;> decide

/-- Reading digits never decreases the accumulated number. -/
theorem strconv.digitsValue_ge (cs : List Char) (acc : Nat) :
    acc ≤ strconv.digitsValue acc cs := by
  induction cs generalizing acc with
  | nil => exact Nat.le_refl _
  | cons c cs ih =>
    have h := ih (acc * 10 + (c.toNat - 48))
    simp only [strconv.digitsValue, List.foldl_cons] at h ⊢
    omega

/-- On digit characters whose number fits 64 bits, the loop of `ParseUint`
returns that number. -/
theorem strconv.ParseUint.loop_digits (cs : List Char) (acc : Nat)
    (hcs : ∀ c ∈ cs, c.isDigit = true) (hval : strconv.digitsValue acc cs < 2 ^ 64) :
    strconv.ParseUint.loop cs acc = .ok (strconv.digitsValue acc cs) := by
  induction cs generalizing acc with
  | nil => rfl
  | cons c cs ih =>
    have hc := hcs c (List.mem_cons_self _ _)
    have hge := strconv.digitsValue_ge cs (acc * 10 + (c.toNat - 48))
    have hstep : strconv.digitsValue acc (c :: cs) =
        strconv.digitsValue (acc * 10 + (c.toNat - 48)) cs := rfl
    rw [hstep] at hval ⊢
    have hlt : acc * 10 + (c.toNat - 48) < 2 ^ 64 := lt_of_le_of_lt hge hval
    have h1 : ¬ acc ≥ (2 ^ 64 - 1) / 10 + 1 := by omega
    have h2 : acc * 10 % 2 ^ 64 = acc * 10 := Nat.mod_eq_of_lt (by omega)
    have h3 : (acc * 10 + (c.toNat - 48)) % 2 ^ 64 = acc * 10 + (c.toNat - 48) :=
      Nat.mod_eq_of_lt hlt
    have h4 : ¬ acc * 10 + (c.toNat - 48) < acc * 10 := by omega
    simp only [strconv.ParseUint.loop, hc, if_true, h1, if_false, h2, h3, h4]
    exact ih _ (fun x hx => hcs x (List.mem_cons_of_mem _ hx)) hval

/-- The digits `Nat.toDigitsCore` puts in front of `ds` denote `n`. -/
theorem toDigitsCore_value (fuel n : Nat) (ds : List Char) (h : n < fuel) :
    strconv.digitsValue 0 (Nat.toDigitsCore 10 fuel n ds) = strconv.digitsValue n ds := by
  induction fuel generalizing n ds with
  | zero => omega
  | succ fuel ih =>
    have hd := (digitChar_isDigit (n % 10) (Nat.mod_lt _ (by decide))).2
    simp only [Nat.toDigitsCore]
    split
    · rename_i h0
      have hn : n % 10 = n := by omega
      rw [hn] at hd ⊢
      simp only [strconv.digitsValue, List.foldl_cons, hd, Nat.zero_mul, Nat.zero_add]
    · rename_i h0
      rw [ih (n / 10) _ (by omega)]
      simp only [strconv.digitsValue, List.foldl_cons, hd]
      congr 1
      omega

/-- A property of decimal digit characters and of `ds` holds of all characters
`Nat.toDigitsCore` returns. -/
theorem toDigitsCore_all (P : Char → Prop) (hP : ∀ d, d < 10 → P (Nat.digitChar d))
    (fuel n : Nat) (ds : List Char) (hds : ∀ c ∈ ds, P c) :
    ∀ c ∈ Nat.toDigitsCore 10 fuel n ds, P c := by
  induction fuel generalizing n ds with
  | zero => exact hds
  | succ fuel ih =>
    have hd := hP (n % 10) (Nat.mod_lt _ (by decide))
    have hcons : ∀ c ∈ Nat.digitChar (n % 10) :: ds, P c := by
      intro c hc
      rcases List.mem_cons.1 hc with rfl | hc
      · exact hd
      · exact hds c hc
    simp only [Nat.toDigitsCore]
    split
    · exact hcons
    · exact ih _ _ hcons

/-- `Nat.toDigitsCore` returns at least the digits it was given. -/
theorem toDigitsCore_ne_nil (fuel n : Nat) (ds : List Char) (hds : ds ≠ []) :
    Nat.toDigitsCore 10 fuel n ds ≠ [] := by
  induction fuel generalizing n ds with
  | zero => exact hds
  | succ fuel ih =>
    simp only [Nat.toDigitsCore]
    split
    · exact List.cons_ne_nil _ _
    · exact ih _ _ (List.cons_ne_nil _ _)

/-- The decimal digits of a natural number: not empty, all digit characters,
denoting the number. -/
theorem toDigits_spec (n : Nat) :
    Nat.toDigits 10 n ≠ [] ∧ (∀ c ∈ Nat.toDigits 10 n, c.isDigit = true) ∧
      strconv.digitsValue 0 (Nat.toDigits 10 n) = n := by
  refine ⟨?_, ?_, ?_⟩
  · simp only [Nat.toDigits, Nat.toDigitsCore]
    split
    · exact List.cons_ne_nil _ _
    · exact toDigitsCore_ne_nil _ _ _ (List.cons_ne_nil _ _)
  · exact toDigitsCore_all (fun c => c.isDigit = true)
      (fun d hd => (digitChar_isDigit d hd).1) _ _ _ (by simp)
  · rw [Nat.toDigits, toDigitsCore_value _ _ _ (Nat.lt_succ_self n)]
    rfl

/-- `ParseUint` reads the decimal digits of a number below 2^64 back. -/
theorem strconv.ParseUint_toDigits (n : Nat) (hn : n < 2 ^ 64) :
    strconv.ParseUint (Nat.toDigits 10 n) = .ok n := by
  obtain ⟨hne, hdig, hval⟩ := toDigits_spec n
  have hloop := strconv.ParseUint.loop_digits (Nat.toDigits 10 n) 0 hdig (by rw [hval]; exact hn)
  rw [hval] at hloop
  cases hds : Nat.toDigits 10 n with
  | nil => exact absurd hds hne
  | cons c cs =>
    rw [hds] at hloop
    simpa only [strconv.ParseUint] using hloop

/-- The characters of the decimal rendering of an integer: the digits of a
natural number, or a minus sign and the digits of the magnitude. -/
theorem toString_int_data (a : Int) :
    (0 ≤ a ∧ (toString a).data = Nat.toDigits 10 a.toNat) ∨
    (a < 0 ∧ (toString a).data = '-' :: Nat.toDigits 10 (-a).toNat) := by
  cases a with
  | ofNat m => exact Or.inl ⟨Int.ofNat_nonneg m, rfl⟩
  | negSucc m => exact Or.inr ⟨Int.negSucc_lt_zero m, rfl⟩

/-- `strconv.ParseInt` reads the decimal rendering of a signed 64-bit integer
back. -/
theorem strconv.ParseInt_toString (a : Int) (hlo : -(2 ^ 63) ≤ a) (hhi : a ≤ 2 ^ 63 - 1) :
    strconv.ParseInt (toString a) = .ok a := by
  rcases toString_int_data a with ⟨h0, hdata⟩ | ⟨h0, hdata⟩
  · obtain ⟨hne, hdig, _⟩ := toDigits_spec a.toNat
    have hparse := strconv.ParseUint_toDigits a.toNat (by omega)
    cases hds : Nat.toDigits 10 a.toNat with
    | nil => exact absurd hds hne
    | cons c cs =>
      have hc := isDigit_ne_sign c (hdig c (by rw [hds]; exact List.mem_cons_self _ _))
      rw [hds] at hdata hparse
      have hr : ¬ (a.toNat ≥ 2 ^ 63) := by omega
      simp only [strconv.ParseInt, hdata, hc.1, hc.2.1, false_or, if_false, hparse,
        not_false_eq_true, true_and, hr, false_and]
      congr 1
      omega
  · have hparse := strconv.ParseUint_toDigits (-a).toNat (by omega)
    have hr : ¬ ((-a).toNat > 2 ^ 63) := by omega
    simp only [strconv.ParseInt, hdata, or_true, if_true, hparse, not_true_eq_false,
      false_and, if_false, true_and, hr]
    congr 1
    omega

/-- Splitting text that holds no separator gives the text as the one piece. -/
theorem strings.splitChars_not_mem (sep : Char) (cs : List Char) (h : sep ∉ cs) :
    strings.splitChars sep cs = [cs] := by
  induction cs with
  | nil => rfl
  | cons c cs ih =>
    rw [List.mem_cons, not_or] at h
    have hc : ¬ c = sep := fun e => h.1 e.symm
    simp only [strings.splitChars, hc, if_false, ih h.2]

/-- Splitting cuts at the first separator. -/
theorem strings.splitChars_append (sep : Char) (cs rest : List Char) (h : sep ∉ cs) :
    strings.splitChars sep (cs ++ sep :: rest) = cs :: strings.splitChars sep rest := by
  induction cs with
  | nil => simp only [List.nil_append, strings.splitChars, if_true]
  | cons c cs ih =>
    rw [List.mem_cons, not_or] at h
    have hc : ¬ c = sep := fun e => h.1 e.symm
    rw [List.cons_append, strings.splitChars, if_neg hc, ih h.2]

/-- The decimal rendering of an integer holds no colon. -/
theorem toString_int_no_colon (a : Int) : ':' ∉ (toString a).data := by
  have hdig : ∀ n : Nat, ':' ∉ Nat.toDigits 10 n := fun n hmem =>
    (isDigit_ne_sign ':' ((toDigits_spec n).2.1 ':' hmem)).2.2 rfl
  rcases toString_int_data a with ⟨_, hdata⟩ | ⟨_, hdata⟩
  · rw [hdata]; exact hdig _
  · rw [hdata, List.mem_cons, not_or]
    exact ⟨by decide, hdig _⟩

/-- `fromCtyNumberList` on the list of one signed 64-bit integer. -/
theorem Ulimit.fromCtyNumberList_one (u : Ulimit) (a : Int)
    (halo : -(2 ^ 63) ≤ a) (hahi : a ≤ 2 ^ 63 - 1) :
    Ulimit.fromCtyNumberList u (.list .number [cty.NumberIntVal a]) =
      Outcome.ok { Soft := a, Hard := a } := by
  simp [Ulimit.fromCtyNumberList, CtyValue.LengthInt, Ulimit.fromCtyNumberList.assign,
    CtyValue.ElementIterator, CtyValue.indexed, cty.NumberIntVal, CtyValue.AsBigFloat,
    BigFloat.Int64_intCast a halo hahi]

/-- `fromCtyNumberList` on the list of two signed 64-bit integers. -/
theorem Ulimit.fromCtyNumberList_two (u : Ulimit) (a b : Int)
    (halo : -(2 ^ 63) ≤ a) (hahi : a ≤ 2 ^ 63 - 1)
    (hblo : -(2 ^ 63) ≤ b) (hbhi : b ≤ 2 ^ 63 - 1) :
    Ulimit.fromCtyNumberList u (.list .number [cty.NumberIntVal a, cty.NumberIntVal b]) =
      Outcome.ok { Soft := a, Hard := b } := by
  simp [Ulimit.fromCtyNumberList, CtyValue.LengthInt, Ulimit.fromCtyNumberList.assign,
    CtyValue.ElementIterator, CtyValue.indexed, cty.NumberIntVal, CtyValue.AsBigFloat,
    BigFloat.Int64_intCast a halo hahi, BigFloat.Int64_intCast b hblo hbhi]

/-- The scalar decoder sends a list of numbers to `fromCtyNumberList`. -/
theorem Ulimit.FromCtyValue_of_number_list (parseNumberVal : String → Option BigFloat)
    (u : Ulimit) (p : cty.Path) (elems : List CtyValue) :
    Ulimit.FromCtyValue parseNumberVal u (.list .number elems) p =
      Ulimit.fromCtyNumberList u (.list .number elems) := by
  simp [Ulimit.FromCtyValue, CtyValue.ctyType, CtyType.IsListType, Ulimit.fromCtyList,
    CtyType.EqualsListOfNumber]

/-- The scalar decoder on a string: the parts between colons are parsed and
the list of the parsed numbers is decoded. -/
theorem Ulimit.FromCtyValue_of_string_parts (parseNumberVal : String → Option BigFloat)
    (u : Ulimit) (p : cty.Path) (s : String) (e : CtyValue) (es : List CtyValue)
    (h : Ulimit.fromCtyString.elems (strings.Split s ':') = .ok (e :: es)) :
    Ulimit.FromCtyValue parseNumberVal u (.string s) p =
      Ulimit.fromCtyNumberList u (.list .number (e :: es)) := by
  simp only [Ulimit.FromCtyValue, CtyValue.ctyType, Ulimit.fromCtyString, CtyValue.AsString,
    h, cty.ListVal]

/-- C7: scalar-level decoding of the decimal rendering of a signed 64-bit
integer `a` gives soft = hard = `a`, and of the renderings of `a` and `b`
joined by a colon gives soft = `a`, hard = `b`; both are the results of
decoding the list of the parsed integers. -/
theorem Ulimit.FromCtyValue_decimal_string (parseNumberVal : String → Option BigFloat)
    (u : Ulimit) (p : cty.Path) (a b : Int)
    (halo : -(2 ^ 63) ≤ a) (hahi : a ≤ 2 ^ 63 - 1)
    (hblo : -(2 ^ 63) ≤ b) (hbhi : b ≤ 2 ^ 63 - 1) :
    Ulimit.FromCtyValue parseNumberVal u (.string (toString a)) p =
      Outcome.ok { Soft := a, Hard := a } ∧
    Ulimit.FromCtyValue parseNumberVal u (.string (toString a ++ ":" ++ toString b)) p =
      Outcome.ok { Soft := a, Hard := b } ∧
    Ulimit.FromCtyValue parseNumberVal u (.string (toString a)) p =
      Ulimit.FromCtyValue parseNumberVal u (.list .number [cty.NumberIntVal a]) p ∧
    Ulimit.FromCtyValue parseNumberVal u (.string (toString a ++ ":" ++ toString b)) p =
      Ulimit.FromCtyValue parseNumberVal u
        (.list .number [cty.NumberIntVal a, cty.NumberIntVal b]) p ∧
    strings.Split (toString a ++ ":" ++ toString b) ':' = [toString a, toString b] := by
  have hsplit1 : strings.Split (toString a) ':' = [toString a] := by
    simp only [strings.Split, strings.splitChars_not_mem _ _ (toString_int_no_colon a),
      List.map_cons, List.map_nil]
  have hsplit2 : strings.Split (toString a ++ ":" ++ toString b) ':' =
      [toString a, toString b] := by
    have hdata : (toString a ++ ":" ++ toString b).data =
        (toString a).data ++ ':' :: (toString b).data := by
      simp [String.data_append]
    simp only [strings.Split, hdata,
      strings.splitChars_append _ _ _ (toString_int_no_colon a),
      strings.splitChars_not_mem _ _ (toString_int_no_colon b), List.map_cons, List.map_nil]
  have hone : Ulimit.FromCtyValue parseNumberVal u (.string (toString a)) p =
      Ulimit.fromCtyNumberList u (.list .number [cty.NumberIntVal a]) := by
    apply Ulimit.FromCtyValue_of_string_parts
    simp only [hsplit1, Ulimit.fromCtyString.elems, strconv.ParseInt_toString a halo hahi]
  have htwo : Ulimit.FromCtyValue parseNumberVal u
      (.string (toString a ++ ":" ++ toString b)) p =
      Ulimit.fromCtyNumberList u (.list .number [cty.NumberIntVal a, cty.NumberIntVal b]) := by
    apply Ulimit.FromCtyValue_of_string_parts
    simp only [hsplit2, Ulimit.fromCtyString.elems, strconv.ParseInt_toString a halo hahi,
      strconv.ParseInt_toString b hblo hbhi]
  refine ⟨?_, ?_, ?_, ?_, hsplit2⟩
  · rw [hone, Ulimit.fromCtyNumberList_one u a halo hahi]
  · rw [htwo, Ulimit.fromCtyNumberList_two u a b halo hahi hblo hbhi]
  · rw [hone, Ulimit.FromCtyValue_of_number_list]
  · rw [htwo, Ulimit.FromCtyValue_of_number_list]

/-- C7, at `100` and `100:200`. -/
theorem Ulimit.FromCtyValue_decimal_string_witness :
    Ulimit.FromCtyValue (fun _ => none) { Hard := 0, Soft := 0 } (.string "100") [] =
      Outcome.ok { Soft := 100, Hard := 100 } ∧
    Ulimit.FromCtyValue (fun _ => none) { Hard := 0, Soft := 0 } (.string "100:200") [] =
      Outcome.ok { Soft := 100, Hard := 200 } ∧
    Ulimit.FromCtyValue (fun _ => none) { Hard := 0, Soft := 0 } (.string "100") [] =
      Ulimit.FromCtyValue (fun _ => none) { Hard := 0, Soft := 0 }
        (.list .number [cty.NumberIntVal 100]) [] ∧
    Ulimit.FromCtyValue (fun _ => none) { Hard := 0, Soft := 0 } (.string "100:200") [] =
      Ulimit.FromCtyValue (fun _ => none) { Hard := 0, Soft := 0 }
        (.list .number [cty.NumberIntVal 100, cty.NumberIntVal 200]) [] ∧
    strings.Split "100:200" ':' = ["100", "200"] :=
  Ulimit.FromCtyValue_decimal_string (fun _ => none) { Hard := 0, Soft := 0 } [] 100 200
    (by decide) (by decide) (by decide) (by decide)

/-- The scalar decoder converts a tuple of numbers to the list of the same
numbers and sends it to `fromCtyNumberList`. -/
theorem Ulimit.FromCtyValue_of_number_tuple (parseNumberVal : String → Option BigFloat)
    (u : Ulimit) (p : cty.Path) (xs : List BigFloat) :
    Ulimit.FromCtyValue parseNumberVal u (.tuple (xs.map CtyValue.number)) p =
      Ulimit.fromCtyNumberList u (.list .number (xs.map CtyValue.number)) := by
  have helems : ∀ i : Nat, convert.elemsToNumber parseNumberVal
      (CtyValue.indexed i (xs.map CtyValue.number)) = .ok (xs.map CtyValue.number) := by
    induction xs with
    | nil => intro i; rfl
    | cons x xs ih =>
      intro i
      simp only [List.map_cons, CtyValue.indexed, convert.elemsToNumber, convert.toNumber,
        ih (i + 1)]
  have hall : ((xs.map CtyValue.number).all fun e => convert.toNumberExists e.ctyType) =
      true := by
    simp [CtyValue.ctyType, convert.toNumberExists]
  simp only [Ulimit.FromCtyValue, CtyValue.ctyType, CtyType.IsListType, CtyType.IsTupleType,
    Ulimit.fromCtyList, CtyType.EqualsListOfNumber, convert.ConvertToNumberList, hall,
    helems 0]
  simp

/-- C8: scalar-level decoding of the list (or tuple) of one signed 64-bit
integer `a` gives soft = hard = `a`, and of the two integers `a`, `b` gives
soft = `a`, hard = `b`, whatever their order. -/
theorem Ulimit.FromCtyValue_one_or_two_numbers (parseNumberVal : String → Option BigFloat)
    (u : Ulimit) (p : cty.Path) (a b : Int)
    (halo : -(2 ^ 63) ≤ a) (hahi : a ≤ 2 ^ 63 - 1)
    (hblo : -(2 ^ 63) ≤ b) (hbhi : b ≤ 2 ^ 63 - 1) :
    Ulimit.FromCtyValue parseNumberVal u (.list .number [cty.NumberIntVal a]) p =
      Outcome.ok { Soft := a, Hard := a } ∧
    Ulimit.FromCtyValue parseNumberVal u
        (.list .number [cty.NumberIntVal a, cty.NumberIntVal b]) p =
      Outcome.ok { Soft := a, Hard := b } ∧
    Ulimit.FromCtyValue parseNumberVal u (.tuple [cty.NumberIntVal a]) p =
      Outcome.ok { Soft := a, Hard := a } ∧
    Ulimit.FromCtyValue parseNumberVal u
        (.tuple [cty.NumberIntVal a, cty.NumberIntVal b]) p =
      Outcome.ok { Soft := a, Hard := b } := by
  refine ⟨?_, ?_, ?_, ?_⟩
  · rw [Ulimit.FromCtyValue_of_number_list, Ulimit.fromCtyNumberList_one u a halo hahi]
  · rw [Ulimit.FromCtyValue_of_number_list,
      Ulimit.fromCtyNumberList_two u a b halo hahi hblo hbhi]
  · exact (Ulimit.FromCtyValue_of_number_tuple parseNumberVal u p [.fin a]).trans
      (Ulimit.fromCtyNumberList_one u a halo hahi)
  · exact (Ulimit.FromCtyValue_of_number_tuple parseNumberVal u p [.fin a, .fin b]).trans
      (Ulimit.fromCtyNumberList_two u a b halo hahi hblo hbhi)

/-- C8, at 200 and 100: a soft limit above the hard limit is accepted. -/
theorem Ulimit.FromCtyValue_one_or_two_numbers_witness :
    Ulimit.FromCtyValue (fun _ => none) { Hard := 0, Soft := 0 }
        (.list .number [cty.NumberIntVal 200]) [] =
      Outcome.ok { Soft := 200, Hard := 200 } ∧
    Ulimit.FromCtyValue (fun _ => none) { Hard := 0, Soft := 0 }
        (.list .number [cty.NumberIntVal 200, cty.NumberIntVal 100]) [] =
      Outcome.ok { Soft := 200, Hard := 100 } ∧
    Ulimit.FromCtyValue (fun _ => none) { Hard := 0, Soft := 0 }
        (.tuple [cty.NumberIntVal 200]) [] =
      Outcome.ok { Soft := 200, Hard := 200 } ∧
    Ulimit.FromCtyValue (fun _ => none) { Hard := 0, Soft := 0 }
        (.tuple [cty.NumberIntVal 200, cty.NumberIntVal 100]) [] =
      Outcome.ok { Soft := 200, Hard := 100 } :=
  Ulimit.FromCtyValue_one_or_two_numbers (fun _ => none) { Hard := 0, Soft := 0 } [] 200 100
    (by decide) (by decide) (by decide) (by decide)

/-- The limits collected for the error text of `fromCtyNumberList`, on known
numbers. -/
theorem Ulimit.fromCtyNumberList.parts_numbers (xs : List BigFloat) (i : Nat) :
    Ulimit.fromCtyNumberList.parts (CtyValue.indexed i (xs.map CtyValue.number)) =
      some (xs.map BigFloat.Int64) := by
  induction xs generalizing i with
  | nil => rfl
  | cons x xs ih =>
    simp only [List.map_cons, CtyValue.indexed, Ulimit.fromCtyNumberList.parts,
      CtyValue.AsBigFloat, ih (i + 1)]

/-- `fromCtyNumberList` on a list of known numbers, by its length. -/
theorem Ulimit.fromCtyNumberList_numbers (u : Ulimit) (xs : List BigFloat) :
    Ulimit.fromCtyNumberList u (.list .number (xs.map CtyValue.number)) =
      match xs with
      | [] => Outcome.error (.tooFew []) u
      | [x] => Outcome.ok { Soft := x.Int64, Hard := x.Int64 }
      | [x, y] => Outcome.ok { Soft := x.Int64, Hard := y.Int64 }
      | _ :: _ :: _ :: _ => Outcome.error (.tooMany (xs.map BigFloat.Int64)) u := by
  match xs with
  | [] => rfl
  | [x] => rfl
  | [x, y] => rfl
  | x :: y :: z :: rest =>
    have hparts := Ulimit.fromCtyNumberList.parts_numbers (x :: y :: z :: rest) 0
    have hlen : ¬ (rest.length + 1 + 1 + 1 < 1) := by omega
    have hlen2 : rest.length + 1 + 1 + 1 > 2 := by omega
    simp only [Ulimit.fromCtyNumberList, CtyValue.LengthInt, CtyValue.ElementIterator,
      List.length_map, List.length_cons, hparts, hlen, hlen2, false_or, if_true, if_false]

/-- C9: scalar-level decoding of a list (or tuple) of numbers fails with the
"too few" error when it is empty and with the "too many" error when it has
three or more elements, the receiver staying as it was; it succeeds exactly
when the length is 1 or 2. -/
theorem Ulimit.FromCtyValue_rejected_lengths (parseNumberVal : String → Option BigFloat)
    (u : Ulimit) (p : cty.Path) (xs : List BigFloat) :
    (xs.length = 0 →
      Ulimit.FromCtyValue parseNumberVal u (.list .number (xs.map CtyValue.number)) p =
        Outcome.error (.tooFew []) u ∧
      Ulimit.FromCtyValue parseNumberVal u (.tuple (xs.map CtyValue.number)) p =
        Outcome.error (.tooFew []) u) ∧
    (3 ≤ xs.length →
      Ulimit.FromCtyValue parseNumberVal u (.list .number (xs.map CtyValue.number)) p =
        Outcome.error (.tooMany (xs.map BigFloat.Int64)) u ∧
      Ulimit.FromCtyValue parseNumberVal u (.tuple (xs.map CtyValue.number)) p =
        Outcome.error (.tooMany (xs.map BigFloat.Int64)) u) ∧
    ((∃ r, Ulimit.FromCtyValue parseNumberVal u (.list .number (xs.map CtyValue.number)) p =
        Outcome.ok r) ↔ xs.length = 1 ∨ xs.length = 2) ∧
    ((∃ r, Ulimit.FromCtyValue parseNumberVal u (.tuple (xs.map CtyValue.number)) p =
        Outcome.ok r) ↔ xs.length = 1 ∨ xs.length = 2) := by
  rw [Ulimit.FromCtyValue_of_number_list, Ulimit.FromCtyValue_of_number_tuple,
    Ulimit.fromCtyNumberList_numbers]
  match xs with
  | [] => simp
  | [x] => simp
  | [x, y] => simp
  | x :: y :: z :: rest => simp

/-- The type of an attribute of an object value is the type of its value. -/
theorem CtyValue.attrTypes_lookup (attrs : List (String × CtyValue)) (name : String) :
    (CtyValue.attrTypes attrs).lookup name = (attrs.lookup name).map CtyValue.ctyType := by
  induction attrs with
  | nil => rfl
  | cons kv attrs ih =>
    obtain ⟨k, v⟩ := kv
    simp only [CtyValue.attrTypes, List.lookup_cons]
    cases name == k with
    | true => rfl
    | false => exact ih

/-- The scalar decoder sends an object to `fromCtyObject`. -/
theorem Ulimit.FromCtyValue_of_object (parseNumberVal : String → Option BigFloat)
    (u : Ulimit) (p : cty.Path) (attrs : List (String × CtyValue)) :
    Ulimit.FromCtyValue parseNumberVal u (.object attrs) p =
      Ulimit.fromCtyObject parseNumberVal u (.object attrs) := by
  simp [Ulimit.FromCtyValue, CtyValue.ctyType, CtyType.IsListType, CtyType.IsTupleType]

/-- C10: scalar-level decoding of the object with `soft = a` and no `hard`, or
a null `hard`, gives soft = hard = `a`; of the object with `soft = a` and
`hard = b` it gives soft = `a`, hard = `b`; an object without the attribute
`soft` fails with the type-mismatch error of the conversion, the receiver
staying as it was. -/
theorem Ulimit.FromCtyValue_soft_hard_object (parseNumberVal : String → Option BigFloat)
    (u : Ulimit) (p : cty.Path) (a b : Int)
    (halo : -(2 ^ 63) ≤ a) (hahi : a ≤ 2 ^ 63 - 1)
    (hblo : -(2 ^ 63) ≤ b) (hbhi : b ≤ 2 ^ 63 - 1) :
    Ulimit.FromCtyValue parseNumberVal u (.object [("soft", cty.NumberIntVal a)]) p =
      Outcome.ok { Soft := a, Hard := a } ∧
    Ulimit.FromCtyValue parseNumberVal u
        (.object [("hard", .null .number), ("soft", cty.NumberIntVal a)]) p =
      Outcome.ok { Soft := a, Hard := a } ∧
    Ulimit.FromCtyValue parseNumberVal u
        (.object [("hard", .null .dynamic), ("soft", cty.NumberIntVal a)]) p =
      Outcome.ok { Soft := a, Hard := a } ∧
    Ulimit.FromCtyValue parseNumberVal u
        (.object [("hard", cty.NumberIntVal b), ("soft", cty.NumberIntVal a)]) p =
      Outcome.ok { Soft := a, Hard := b } ∧
    (∀ attrs : List (String × CtyValue), attrs.lookup "soft" = none →
      Ulimit.FromCtyValue parseNumberVal u (.object attrs) p =
        Outcome.error (.mismatch none (CtyValue.object attrs).ctyType ulimitType) u) := by
  have ha := BigFloat.Int64_intCast a halo hahi
  have hb := BigFloat.Int64_intCast b hblo hbhi
  refine ⟨?_, ?_, ?_, ?_, ?_⟩
  · simp [Ulimit.FromCtyValue_of_object, Ulimit.fromCtyObject, convert.ConvertToUlimitType,
      convert.equalsUlimitObjectType, convert.toUlimitTypeExists, convert.toNumberExists,
      convert.attrsToNumber, convert.toNumber, convert.withOptionalHard, CtyValue.attrTypes,
      CtyValue.ctyType, CtyValue.GetAttr, CtyValue.AsBigFloat, CtyValue.IsNull,
      cty.NumberIntVal, List.lookup, ha]
  · simp [Ulimit.FromCtyValue_of_object, Ulimit.fromCtyObject, convert.ConvertToUlimitType,
      convert.equalsUlimitObjectType, convert.toUlimitTypeExists, convert.toNumberExists,
      convert.attrsToNumber, convert.toNumber, convert.withOptionalHard, CtyValue.attrTypes,
      CtyValue.ctyType, CtyValue.GetAttr, CtyValue.AsBigFloat, CtyValue.IsNull,
      cty.NumberIntVal, List.lookup, ha]
  · simp [Ulimit.FromCtyValue_of_object, Ulimit.fromCtyObject, convert.ConvertToUlimitType,
      convert.equalsUlimitObjectType, convert.toUlimitTypeExists, convert.toNumberExists,
      convert.attrsToNumber, convert.toNumber, convert.withOptionalHard, CtyValue.attrTypes,
      CtyValue.ctyType, CtyValue.GetAttr, CtyValue.AsBigFloat, CtyValue.IsNull,
      cty.NumberIntVal, List.lookup, ha]
  · simp [Ulimit.FromCtyValue_of_object, Ulimit.fromCtyObject, convert.ConvertToUlimitType,
      convert.equalsUlimitObjectType, convert.toUlimitTypeExists, convert.toNumberExists,
      convert.attrsToNumber, convert.toNumber, convert.withOptionalHard, CtyValue.attrTypes,
      CtyValue.ctyType, CtyValue.GetAttr, CtyValue.AsBigFloat, CtyValue.IsNull,
      cty.NumberIntVal, List.lookup, ha, hb]
  · intro attrs hsoft
    have hty : (CtyValue.attrTypes attrs).lookup "soft" = none := by
      rw [CtyValue.attrTypes_lookup, hsoft]; rfl
    simp [Ulimit.FromCtyValue_of_object, Ulimit.fromCtyObject, convert.ConvertToUlimitType,
      convert.equalsUlimitObjectType, convert.toUlimitTypeExists, hty]

/-- C10, at soft 100 and hard 200. -/
theorem Ulimit.FromCtyValue_soft_hard_object_witness :
    Ulimit.FromCtyValue (fun _ => none) { Hard := 0, Soft := 0 }
        (.object [("soft", cty.NumberIntVal 100)]) [] =
      Outcome.ok { Soft := 100, Hard := 100 } ∧
    Ulimit.FromCtyValue (fun _ => none) { Hard := 0, Soft := 0 }
        (.object [("hard", .null .number), ("soft", cty.NumberIntVal 100)]) [] =
      Outcome.ok { Soft := 100, Hard := 100 } ∧
    Ulimit.FromCtyValue (fun _ => none) { Hard := 0, Soft := 0 }
        (.object [("hard", .null .dynamic), ("soft", cty.NumberIntVal 100)]) [] =
      Outcome.ok { Soft := 100, Hard := 100 } ∧
    Ulimit.FromCtyValue (fun _ => none) { Hard := 0, Soft := 0 }
        (.object [("hard", cty.NumberIntVal 200), ("soft", cty.NumberIntVal 100)]) [] =
      Outcome.ok { Soft := 100, Hard := 200 } ∧
    (∀ attrs : List (String × CtyValue), attrs.lookup "soft" = none →
      Ulimit.FromCtyValue (fun _ => none) { Hard := 0, Soft := 0 } (.object attrs) [] =
        Outcome.error (.mismatch none (CtyValue.object attrs).ctyType ulimitType)
          { Hard := 0, Soft := 0 }) :=
  Ulimit.FromCtyValue_soft_hard_object (fun _ => none) { Hard := 0, Soft := 0 } [] 100 200
    (by decide) (by decide) (by decide) (by decide)

/-- `fromCtyObject` on the object holding the known numbers `y` as `hard` and
`x` as `soft`. -/
theorem Ulimit.FromCtyValue_of_hard_soft (parseNumberVal : String → Option BigFloat)
    (r : Ulimit) (p : cty.Path) (x y : BigFloat) :
    Ulimit.FromCtyValue parseNumberVal r
        (.object [("hard", .number y), ("soft", .number x)]) p =
      Outcome.ok { Soft := x.Int64, Hard := y.Int64 } := by
  simp [Ulimit.FromCtyValue, CtyType.IsListType, CtyType.IsTupleType, Ulimit.fromCtyObject,
    convert.ConvertToUlimitType, convert.equalsUlimitObjectType, CtyValue.attrTypes,
    CtyValue.ctyType, CtyValue.GetAttr, CtyValue.AsBigFloat, CtyValue.IsNull, List.lookup]

/-- `fromCtyObject` on the object holding only the known number `x` as
`soft`. -/
theorem Ulimit.FromCtyValue_of_soft_only (parseNumberVal : String → Option BigFloat)
    (r : Ulimit) (p : cty.Path) (x : BigFloat) :
    Ulimit.FromCtyValue parseNumberVal r (.object [("soft", .number x)]) p =
      Outcome.ok { Soft := x.Int64, Hard := x.Int64 } := by
  simp [Ulimit.FromCtyValue, CtyType.IsListType, CtyType.IsTupleType, Ulimit.fromCtyObject,
    convert.ConvertToUlimitType, convert.equalsUlimitObjectType, convert.toUlimitTypeExists,
    convert.toNumberExists, convert.attrsToNumber, convert.toNumber,
    convert.withOptionalHard, CtyValue.attrTypes, CtyValue.ctyType, CtyValue.GetAttr,
    CtyValue.AsBigFloat, CtyValue.IsNull, List.lookup]

/-- C11: for a non-nil `Ulimit` `u` (with 64-bit limits), scalar-level decoding
of its encoding succeeds, into any receiver, with `u` itself, so encoding the
decoded value gives the encoding of `u` again. -/
theorem Ulimit.ToCtyValue_idempotent (parseNumberVal : String → Option BigFloat)
    (r : Ulimit) (p : cty.Path) (u : Ulimit)
    (hslo : -(2 ^ 63) ≤ u.Soft) (hshi : u.Soft ≤ 2 ^ 63 - 1)
    (hhlo : -(2 ^ 63) ≤ u.Hard) (hhhi : u.Hard ≤ 2 ^ 63 - 1) :
    ∃ d : Ulimit,
      Ulimit.FromCtyValue parseNumberVal r (Ulimit.ToCtyValue (some u)) p = Outcome.ok d ∧
      d = u ∧
      Ulimit.ToCtyValue (some d) = Ulimit.ToCtyValue (some u) := by
  refine ⟨u, ?_, rfl, rfl⟩
  have h := Ulimit.FromCtyValue_of_hard_soft parseNumberVal r p (.fin u.Soft) (.fin u.Hard)
  rw [BigFloat.Int64_intCast u.Soft hslo hshi, BigFloat.Int64_intCast u.Hard hhlo hhhi] at h
  exact h

/-- C11, at soft 1024 and hard 2048, decoded into a receiver holding other
limits. -/
theorem Ulimit.ToCtyValue_idempotent_witness :
    ∃ d : Ulimit,
      Ulimit.FromCtyValue (fun _ => none) { Hard := 7, Soft := 3 }
        (Ulimit.ToCtyValue (some { Hard := 2048, Soft := 1024 })) [] = Outcome.ok d ∧
      d = { Hard := 2048, Soft := 1024 } ∧
      Ulimit.ToCtyValue (some d) = Ulimit.ToCtyValue (some { Hard := 2048, Soft := 1024 }) :=
  Ulimit.ToCtyValue_idempotent (fun _ => none) { Hard := 7, Soft := 3 } []
    { Hard := 2048, Soft := 1024 } (by decide) (by decide) (by decide) (by decide)

/-- C12: the nil `Ulimit` encodes as a typed null (of the type map of
`ulimitType`); a non-nil `Ulimit` encodes as a known object with exactly the
attributes `hard` and `soft`, holding its hard and its soft limit, also when
the two are equal. -/
theorem Ulimit.ToCtyValue_canonical :
    (Ulimit.ToCtyValue none = .null (.map ulimitType) ∧
      (Ulimit.ToCtyValue none).IsNull = true) ∧
    ∀ u : Ulimit,
      Ulimit.ToCtyValue (some u) =
        .object [("hard", cty.NumberIntVal u.Hard), ("soft", cty.NumberIntVal u.Soft)] ∧
      (Ulimit.ToCtyValue (some u)).IsNull = false ∧
      (Ulimit.ToCtyValue (some u)).ctyType =
        .object [("hard", .number), ("soft", .number)] [] ∧
      (Ulimit.ToCtyValue (some u)).LengthInt = some 2 ∧
      (Ulimit.ToCtyValue (some u)).GetAttr "soft" = some (cty.NumberIntVal u.Soft) ∧
      (Ulimit.ToCtyValue (some u)).GetAttr "hard" = some (cty.NumberIntVal u.Hard) ∧
      (∀ name : String, name ≠ "soft" → name ≠ "hard" →
        (Ulimit.ToCtyValue (some u)).GetAttr name = none) := by
  refine ⟨⟨rfl, rfl⟩, fun u => ⟨rfl, rfl, rfl, rfl, rfl, rfl, ?_⟩⟩
  intro name hs hh
  have h1 : (name == "hard") = false := beq_false_of_ne hh
  have h2 : (name == "soft") = false := beq_false_of_ne hs
  simp only [Ulimit.ToCtyValue, CtyValue.GetAttr, List.lookup, h1, h2]

/-- The element type `cty.MapVal` settles on when every value is the encoding
of a non-nil `Ulimit`. -/
theorem cty.MapVal.elementType_of_objects (l : List (String × CtyValue))
    (hl : ∀ kv ∈ l, kv.2.ctyType = .object [("hard", .number), ("soft", .number)] []) :
    cty.MapVal.elementType l (.object [("hard", .number), ("soft", .number)] []) =
      some (.object [("hard", .number), ("soft", .number)] []) := by
  induction l with
  | nil => rfl
  | cons kv l ih =>
    obtain ⟨k, v⟩ := kv
    have hv := hl (k, v) (List.mem_cons_self _ _)
    simp only at hv
    have heq : CtyType.Equals (.object [("hard", .number), ("soft", .number)] [])
        (.object [("hard", .number), ("soft", .number)] []) = true := rfl
    simp only [cty.MapVal.elementType, hv, CtyType.isDynamic, heq]
    simpa using ih (fun x hx => hl x (List.mem_cons_of_mem _ hx))

/-- The encoding of a collection that is not empty and has no nil entry: the
map of element type object of two numbers, whose entries, with pairwise
distinct keys, are the encodings of the entries of the collection. -/
theorem Ulimits.ToCtyValue_of_no_nil_entries (m : UlimitMap)
    (hne : m.entries ≠ []) (hnil : ∀ k : String, m.lookup k ≠ some none) :
    ∃ elems : List (String × CtyValue),
      Ulimits.ToCtyValue (some m) =
        some (.map (.object [("hard", .number), ("soft", .number)] []) elems) ∧
      (elems.map Prod.fst).Nodup ∧
      ∀ (k : String) (v : CtyValue), (k, v) ∈ elems ↔
        ∃ ul, m.lookup k = some (some ul) ∧ v = Ulimit.ToCtyValue (some ul) := by
  have hsome : ∀ kv ∈ m.entries, ∃ ul, kv.2 = some ul := by
    intro kv hkv
    obtain ⟨k, e⟩ := kv
    cases e with
    | some ul => exact ⟨ul, rfl⟩
    | none => exact absurd (AList.mem_lookup_iff.2 hkv) (hnil k)
  have hty : ∀ kv ∈ m.entries.map (fun kv => (kv.1, Ulimit.ToCtyValue kv.2)),
      kv.2.ctyType = .object [("hard", .number), ("soft", .number)] [] := by
    intro kv hkv
    obtain ⟨x, hx, rfl⟩ := List.mem_map.1 hkv
    obtain ⟨ul, hul⟩ := hsome x hx
    simp only [hul]
    rfl
  have hlen : ¬ m.entries.length = 0 := fun h => hne (List.length_eq_zero.1 h)
  refine ⟨(m.entries.map fun kv => (kv.1, Ulimit.ToCtyValue kv.2)).insertionSort
    (fun a b => a.1.data < b.1.data), ?_, ?_, ?_⟩
  · cases hent : m.entries with
    | nil => exact absurd hent hne
    | cons kv rest =>
      rw [hent] at hty
      have hfirst := hty _ (List.mem_cons_self _ _)
      have hrest := cty.MapVal.elementType_of_objects _
        (fun x hx => hty x (List.mem_cons_of_mem _ hx))
      simp only [List.map_cons] at hfirst hrest
      simp only [Ulimits.ToCtyValue, Ulimits.entries, hent, List.length_cons,
        Nat.succ_ne_zero, if_false, List.map_cons, cty.MapVal, cty.MapVal.elementType,
        CtyType.isDynamic, if_true, hfirst, hrest]
  · have hperm := List.perm_insertionSort (fun a b : String × CtyValue => a.1.data < b.1.data)
      (m.entries.map fun kv => (kv.1, Ulimit.ToCtyValue kv.2))
    refine (hperm.map Prod.fst).nodup_iff.2 ?_
    have hkeys : (m.entries.map fun kv => (kv.1, Ulimit.ToCtyValue kv.2)).map Prod.fst =
        m.keys := by
      simp [AList.keys, List.keys, List.map_map]
    rw [hkeys]
    exact m.keys_nodup
  · intro k v
    rw [(List.perm_insertionSort _ _).mem_iff, List.mem_map]
    constructor
    · rintro ⟨kv, hkv, heq⟩
      obtain ⟨k0, e⟩ := kv
      obtain ⟨ul, hul⟩ := hsome _ hkv
      simp only at hul
      subst hul
      simp only [Prod.mk.injEq] at heq
      obtain ⟨rfl, rfl⟩ := heq
      exact ⟨ul, AList.mem_lookup_iff.2 hkv, rfl⟩
    · rintro ⟨ul, hlk, rfl⟩
      exact ⟨⟨k, some ul⟩, AList.mem_lookup_iff.1 hlk, rfl⟩

/-- C13, at a failing input: `Ulimits.ToCtyValue` panics on the collection
with a nil entry `nofile` and an entry `nproc` of 100/100, whatever the order
in which the `range` loop visits them, and so returns no mapping with two
keys; the nil collection and the empty collection encode as the empty map of
element type `ulimitType`, which is not null. -/
theorem Ulimits.ToCtyValue_nil_entry_panics :
    Ulimits.ToCtyValue
      (some ((∅ : UlimitMap).insert "nproc" (some { Soft := 100, Hard := 100 })
        |>.insert "nofile" none)) = none ∧
    Ulimits.ToCtyValue
      (some ((∅ : UlimitMap).insert "nofile" none
        |>.insert "nproc" (some { Soft := 100, Hard := 100 }))) = none ∧
    Ulimits.ToCtyValue none = some (.map ulimitType []) ∧
    Ulimits.ToCtyValue (some ∅) = some (.map ulimitType []) :=
  ⟨rfl, rfl, rfl, rfl⟩

/-- What the loop of `ToUlimitOpt` returns on entries with pairwise distinct
keys, none of them nil: a record for every entry, under its key and carrying
it as name; the other keys as they were. -/
theorem Ulimits.ToUlimitOpt.loop_spec (l : List (Sigma fun _ : String => Option Ulimit))
    (hnd : l.NodupKeys) (hsome : ∀ kv ∈ l, kv.2 ≠ none) (ref : dockeropts.UlimitOpt) :
    ∃ opt : dockeropts.UlimitOpt, Ulimits.ToUlimitOpt.loop l ref = some opt ∧
      (∀ k : String, k ∈ opt ↔ k ∈ ref ∨ k ∈ l.keys) ∧
      (∀ (k : String) (ul : Ulimit), Sigma.mk k (some ul) ∈ l →
        opt.lookup k = some { Name := k, Soft := ul.Soft, Hard := ul.Hard }) ∧
      (∀ k : String, k ∉ l.keys → opt.lookup k = ref.lookup k) := by
  induction l generalizing ref with
  | nil => exact ⟨ref, rfl, by simp, by simp, fun _ _ => rfl⟩
  | cons kv l ih =>
    obtain ⟨k0, e⟩ := kv
    cases e with
    | none => exact absurd rfl (hsome ⟨k0, none⟩ (List.mem_cons_self _ _))
    | some u0 =>
      rw [List.nodupKeys_cons] at hnd
      obtain ⟨opt, hopt, hkeys, hrec, hother⟩ :=
        ih hnd.2 (fun x hx => hsome x (List.mem_cons_of_mem _ hx))
          (ref.insert k0 { Name := k0, Soft := u0.Soft, Hard := u0.Hard })
      refine ⟨opt, by simpa only [Ulimits.ToUlimitOpt.loop] using hopt, fun k => ?_, ?_, ?_⟩
      · rw [hkeys, AList.mem_insert, List.keys_cons, List.mem_cons]
        tauto
      · intro k ul hmem
        rcases List.mem_cons.1 hmem with heq | hmem
        · have hk : k = k0 := by cases heq; rfl
          have hu : ul = u0 := by cases heq; rfl
          subst hk hu
          rw [hother k hnd.1]
          exact AList.lookup_insert _
        · exact hrec k ul hmem
      · intro k hk
        rw [List.keys_cons, List.mem_cons, not_or] at hk
        rw [hother k hk.2]
        exact AList.lookup_insert_ne hk.1

/-- A name of the go-units table holds no equals sign. -/
theorem units.ulimitNames_no_eq (name : String) (h : name ∈ units.ulimitNames) :
    '=' ∉ name.data := by
  simp only [units.ulimitNames, List.mem_cons, List.mem_singleton, List.not_mem_nil,
    or_false] at h
  rcases h with rfl | rfl | rfl | rfl | rfl | rfl | rfl | rfl | rfl | rfl | rfl | rfl | rfl |
    rfl | rfl <;> decide

/-- Cutting at the first separator gives the text before it and the rest. -/
theorem strings.splitFirst_append (sep : Char) (cs rest : List Char) (h : sep ∉ cs) :
    strings.splitFirst sep (cs ++ sep :: rest) = [cs, rest] := by
  induction cs with
  | nil => simp only [List.nil_append, strings.splitFirst, if_true]
  | cons c cs ih =>
    rw [List.mem_cons, not_or] at h
    have hc : ¬ c = sep := fun e => h.1 e.symm
    rw [List.cons_append, strings.splitFirst, if_neg hc, ih h.2]

/-- The renderings of two integers joined by a colon split into the two
renderings. -/
theorem strings.Split_soft_hard (a b : Int) :
    strings.Split (toString a ++ ":" ++ toString b) ':' = [toString a, toString b] := by
  have hdata : (toString a ++ ":" ++ toString b).data =
      (toString a).data ++ ':' :: (toString b).data := by
    simp [String.data_append]
  simp only [strings.Split, hdata,
    strings.splitChars_append _ _ _ (toString_int_no_colon a),
    strings.splitChars_not_mem _ _ (toString_int_no_colon b), List.map_cons, List.map_nil]

/-- The go-units parser on a token `name=soft:hard` with a name of its table,
64-bit limits, and a soft limit that the hard limit allows. -/
theorem units.ParseUlimit_soft_hard (name : String) (soft hard : Int)
    (hname : name ∈ units.ulimitNames)
    (hslo : -(2 ^ 63) ≤ soft) (hshi : soft ≤ 2 ^ 63 - 1)
    (hhlo : -(2 ^ 63) ≤ hard) (hhhi : hard ≤ 2 ^ 63 - 1)
    (hvalid : hard = -1 ∨ (soft ≠ -1 ∧ soft ≤ hard)) :
    units.ParseUlimit (name ++ "=" ++ (toString soft ++ ":" ++ toString hard)) =
      .ok { Name := name, Soft := soft, Hard := hard } := by
  have hdata : (name ++ "=" ++ (toString soft ++ ":" ++ toString hard)).data =
      name.data ++ '=' :: (toString soft ++ ":" ++ toString hard).data := by
    simp [String.data_append]
  have hsplit : strings.SplitN2 (name ++ "=" ++ (toString soft ++ ":" ++ toString hard)) '=' =
      [name, toString soft ++ ":" ++ toString hard] := by
    simp only [strings.SplitN2, hdata,
      strings.splitFirst_append _ _ _ (units.ulimitNames_no_eq name hname),
      List.map_cons, List.map_nil]
  have hcheck : units.checkLimits name soft hard =
      .ok { Name := name, Soft := soft, Hard := hard } := by
    unfold units.checkLimits
    rw [if_neg (by omega), if_neg (by omega)]
  simp only [units.ParseUlimit, hsplit, hname, if_true, strings.Split_soft_hard,
    strconv.ParseInt_toString hard hhlo hhhi, strconv.ParseInt_toString soft hslo hshi,
    hcheck]

/-- C14: for a valid token `name=soft:hard`, `ParseUlimits` of the one token
followed by `ToUlimitOpt` gives exactly one record, with that name, soft and
hard limit (and with the parsed name and limits for any token that parses,
under any token parser); and `ToUlimitOpt` of a collection without nil entries gives one
record per key, carrying the key as name and the entry's limits. -/
theorem Ulimits.ToUlimitOpt_round_trip (name : String) (soft hard : Int)
    (hname : name ∈ units.ulimitNames)
    (hslo : -(2 ^ 63) ≤ soft) (hshi : soft ≤ 2 ^ 63 - 1)
    (hhlo : -(2 ^ 63) ≤ hard) (hhhi : hard ≤ 2 ^ 63 - 1)
    (hvalid : hard = -1 ∨ (soft ≠ -1 ∧ soft ≤ hard)) :
    (∃ (m : UlimitMap) (opt : dockeropts.UlimitOpt),
      ParseUlimits units.ParseUlimit
        [name ++ "=" ++ (toString soft ++ ":" ++ toString hard)] = (some m, none) ∧
      Ulimits.ToUlimitOpt (some m) = some opt ∧
      opt.entries = [⟨name, { Name := name, Soft := soft, Hard := hard }⟩]) ∧
    (∀ (parseUlimit : String → Except GoError units.Ulimit) (tok : String)
      (u : units.Ulimit), parseUlimit tok = .ok u →
      ∃ (m : UlimitMap) (opt : dockeropts.UlimitOpt),
        ParseUlimits parseUlimit [tok] = (some m, none) ∧
        Ulimits.ToUlimitOpt (some m) = some opt ∧
        opt.entries = [⟨u.Name, { Name := u.Name, Soft := u.Soft, Hard := u.Hard }⟩]) ∧
    (∀ m : UlimitMap, (∀ k : String, m.lookup k ≠ some none) →
      ∃ opt : dockeropts.UlimitOpt, Ulimits.ToUlimitOpt (some m) = some opt ∧
        (∀ k : String, k ∈ opt ↔ k ∈ m) ∧
        (∀ (k : String) (ul : Ulimit), m.lookup k = some (some ul) →
          opt.lookup k = some { Name := k, Soft := ul.Soft, Hard := ul.Hard })) := by
  refine ⟨?_, ?_, ?_⟩
  · refine ⟨(∅ : UlimitMap).insert name (some { Soft := soft, Hard := hard }),
      (∅ : dockeropts.UlimitOpt).insert name { Name := name, Soft := soft, Hard := hard },
      ?_, rfl, rfl⟩
    simp only [ParseUlimits, ParseUlimits.loop,
      units.ParseUlimit_soft_hard name soft hard hname hslo hshi hhlo hhhi hvalid]
  · intro parseUlimit tok u hu
    refine ⟨(∅ : UlimitMap).insert u.Name (some { Soft := u.Soft, Hard := u.Hard }),
      (∅ : dockeropts.UlimitOpt).insert u.Name
        { Name := u.Name, Soft := u.Soft, Hard := u.Hard }, ?_, rfl, rfl⟩
    simp only [ParseUlimits, ParseUlimits.loop, hu]
  · intro m hnil
    have hsome : ∀ kv ∈ m.entries, kv.2 ≠ none := by
      intro kv hkv hnone
      obtain ⟨k, e⟩ := kv
      simp only at hnone
      subst hnone
      exact hnil k (AList.mem_lookup_iff.2 hkv)
    obtain ⟨opt, hopt, hkeys, hrec, _⟩ :=
      Ulimits.ToUlimitOpt.loop_spec m.entries m.nodupKeys hsome ∅
    refine ⟨opt, hopt, fun k => ?_, fun k ul hlk => hrec k ul (AList.mem_lookup_iff.1 hlk)⟩
    rw [hkeys]
    simp [AList.not_mem_empty, AList.mem_keys, AList.keys]

/-- C14, at the token `nofile=1024:2048`. -/
theorem Ulimits.ToUlimitOpt_round_trip_witness :
    (∃ (m : UlimitMap) (opt : dockeropts.UlimitOpt),
      ParseUlimits units.ParseUlimit ["nofile=1024:2048"] = (some m, none) ∧
      Ulimits.ToUlimitOpt (some m) = some opt ∧
      opt.entries = [⟨"nofile", { Name := "nofile", Soft := 1024, Hard := 2048 }⟩]) ∧
    (∀ (parseUlimit : String → Except GoError units.Ulimit) (tok : String)
      (u : units.Ulimit), parseUlimit tok = .ok u →
      ∃ (m : UlimitMap) (opt : dockeropts.UlimitOpt),
        ParseUlimits parseUlimit [tok] = (some m, none) ∧
        Ulimits.ToUlimitOpt (some m) = some opt ∧
        opt.entries = [⟨u.Name, { Name := u.Name, Soft := u.Soft, Hard := u.Hard }⟩]) ∧
    (∀ m : UlimitMap, (∀ k : String, m.lookup k ≠ some none) →
      ∃ opt : dockeropts.UlimitOpt, Ulimits.ToUlimitOpt (some m) = some opt ∧
        (∀ k : String, k ∈ opt ↔ k ∈ m) ∧
        (∀ (k : String) (ul : Ulimit), m.lookup k = some (some ul) →
          opt.lookup k = some { Name := k, Soft := ul.Soft, Hard := ul.Hard })) :=
  Ulimits.ToUlimitOpt_round_trip "nofile" 1024 2048 (by decide) (by decide) (by decide)
    (by decide) (by decide) (by decide)

/-- The loop of `Ulimits.fromCtyList` reaches an element that is not a string
after strings that all parse: it returns the type mismatch of that element. -/
theorem Ulimits.fromCtyList.loop_non_string
    (parseUlimit : String → Except GoError units.Ulimit) (u : Ulimits) (p : cty.Path)
    (pre : List String) (bad : CtyValue) (post : List CtyValue)
    (hbad : bad.ctyType ≠ .string) (hpre : ∀ s ∈ pre, ∃ ul, parseUlimit s = .ok ul)
    (i : Nat) (vals : UlimitMap) :
    Ulimits.fromCtyList.loop parseUlimit u p
        (CtyValue.indexed i (pre.map CtyValue.string ++ bad :: post)) vals =
      Outcome.error (.mismatch (some p) bad.ctyType .string) u := by
  induction pre generalizing i vals with
  | nil =>
    simp only [List.map_nil, List.nil_append, CtyValue.indexed, Ulimits.fromCtyList.loop]
  | cons s pre ih =>
    obtain ⟨ul, hul⟩ := hpre s (List.mem_cons_self _ _)
    simp only [List.map_cons, List.cons_append, CtyValue.indexed, Ulimits.fromCtyList.loop,
      CtyValue.ctyType, CtyValue.AsString, hul]
    exact ih (fun x hx => hpre x (List.mem_cons_of_mem _ hx)) _ _

/-- The loop of `Ulimits.fromCtyList` reaches a string that fails to parse
after strings that all parse: it returns the parse error, whatever follows. -/
theorem Ulimits.fromCtyList.loop_parse_error
    (parseUlimit : String → Except GoError units.Ulimit) (u : Ulimits) (p : cty.Path)
    (pre : List String) (s : String) (rest : List CtyValue) (err : GoError)
    (hpre : ∀ t ∈ pre, ∃ ul, parseUlimit t = .ok ul) (hs : parseUlimit s = .error err)
    (i : Nat) (vals : UlimitMap) :
    Ulimits.fromCtyList.loop parseUlimit u p
        (CtyValue.indexed i (pre.map CtyValue.string ++ CtyValue.string s :: rest)) vals =
      Outcome.error err u := by
  induction pre generalizing i vals with
  | nil =>
    simp only [List.map_nil, List.nil_append, CtyValue.indexed, Ulimits.fromCtyList.loop,
      CtyValue.ctyType, CtyValue.AsString, hs]
  | cons t pre ih =>
    obtain ⟨ul, hul⟩ := hpre t (List.mem_cons_self _ _)
    simp only [List.map_cons, List.cons_append, CtyValue.indexed, Ulimits.fromCtyList.loop,
      CtyValue.ctyType, CtyValue.AsString, hul]
    exact ih (fun x hx => hpre x (List.mem_cons_of_mem _ hx)) _ _

/-- The collection decoder runs the loop of `fromCtyList` on the elements of
a known tuple or list. -/
theorem Ulimits.FromCtyValue_of_sequence
    (parseUlimit : String → Except GoError units.Ulimit)
    (parseNumberVal : String → Option BigFloat) (u : Ulimits) (p : cty.Path)
    (ety : CtyType) (elems : List CtyValue) :
    Ulimits.FromCtyValue parseUlimit parseNumberVal u (.tuple elems) p =
      Ulimits.fromCtyList.loop parseUlimit u p (CtyValue.indexed 0 elems) ∅ ∧
    Ulimits.FromCtyValue parseUlimit parseNumberVal u (.list ety elems) p =
      Ulimits.fromCtyList.loop parseUlimit u p (CtyValue.indexed 0 elems) ∅ := by
  constructor
  · simp only [Ulimits.FromCtyValue, CtyValue.ctyType, CtyType.IsTupleType, or_true,
      if_true, Ulimits.fromCtyList, CtyValue.LengthInt, CtyValue.ElementIterator]
  · simp only [Ulimits.FromCtyValue, CtyValue.ctyType, CtyType.IsListType, true_or,
      if_true, Ulimits.fromCtyList, CtyValue.LengthInt, CtyValue.ElementIterator]

/-- C15, counterexample: on the tuple of the string `bogus` and the number 1,
collection-level decoding returns the parse error of `bogus`, not a type
mismatch. -/
theorem Ulimits.FromCtyValue_parse_error_first :
    Ulimits.FromCtyValue units.ParseUlimit (fun _ => none) none
        (.tuple [.string "bogus", cty.NumberIntVal 1]) [] =
      Outcome.error (.units (.invalidArgument "bogus")) none ∧
    ¬ ∃ (path : Option cty.Path) (got want : CtyType),
      Ulimits.FromCtyValue units.ParseUlimit (fun _ => none) none
        (.tuple [.string "bogus", cty.NumberIntVal 1]) [] =
      Outcome.error (.mismatch path got want) none := by
  have h : Ulimits.FromCtyValue units.ParseUlimit (fun _ => none) none
      (.tuple [.string "bogus", cty.NumberIntVal 1]) [] =
      Outcome.error (.units (.invalidArgument "bogus")) none := rfl
  refine ⟨h, ?_⟩
  rintro ⟨path, got, want, hm⟩
  rw [h] at hm
  cases hm

/-- C15, amended: on a tuple or list whose first element that is not a string
comes after known strings, collection-level decoding returns an error and
leaves the receiver as it was: the type mismatch naming string when all those
strings parse, else the parse error of the first of them that fails. -/
theorem Ulimits.FromCtyValue_non_string_element
    (parseUlimit : String → Except GoError units.Ulimit)
    (parseNumberVal : String → Option BigFloat) (u : Ulimits) (p : cty.Path)
    (pre : List String) (bad : CtyValue) (post : List CtyValue) (ety : CtyType)
    (hbad : bad.ctyType ≠ .string) :
    ((∀ s ∈ pre, ∃ ul, parseUlimit s = .ok ul) →
      Ulimits.FromCtyValue parseUlimit parseNumberVal u
          (.tuple (pre.map CtyValue.string ++ bad :: post)) p =
        Outcome.error (.mismatch (some p) bad.ctyType .string) u ∧
      Ulimits.FromCtyValue parseUlimit parseNumberVal u
          (.list ety (pre.map CtyValue.string ++ bad :: post)) p =
        Outcome.error (.mismatch (some p) bad.ctyType .string) u) ∧
    (∀ (pre1 : List String) (s : String) (pre2 : List String) (err : GoError),
      pre = pre1 ++ s :: pre2 → (∀ t ∈ pre1, ∃ ul, parseUlimit t = .ok ul) →
      parseUlimit s = .error err →
      Ulimits.FromCtyValue parseUlimit parseNumberVal u
          (.tuple (pre.map CtyValue.string ++ bad :: post)) p = Outcome.error err u ∧
      Ulimits.FromCtyValue parseUlimit parseNumberVal u
          (.list ety (pre.map CtyValue.string ++ bad :: post)) p = Outcome.error err u) := by
  have hseq := Ulimits.FromCtyValue_of_sequence parseUlimit parseNumberVal u p ety
    (pre.map CtyValue.string ++ bad :: post)
  rw [hseq.1, hseq.2]
  constructor
  · intro hpre
    have h := Ulimits.fromCtyList.loop_non_string parseUlimit u p pre bad post hbad hpre 0 ∅
    exact ⟨h, h⟩
  · intro pre1 s pre2 err hsplit hpre1 hs
    subst hsplit
    have h := Ulimits.fromCtyList.loop_parse_error parseUlimit u p pre1 s
      (pre2.map CtyValue.string ++ bad :: post) err hpre1 hs 0 ∅
    have hlist : (pre1 ++ s :: pre2).map CtyValue.string ++ bad :: post =
        pre1.map CtyValue.string ++
          CtyValue.string s :: (pre2.map CtyValue.string ++ bad :: post) := by
      simp
    rw [hlist]
    exact ⟨h, h⟩

/-- C15 amended, at the tuple of `nofile=1024`, the number 1 and a string. -/
theorem Ulimits.FromCtyValue_non_string_element_witness :
    ((∀ s ∈ ["nofile=1024"], ∃ ul, units.ParseUlimit s = .ok ul) →
      Ulimits.FromCtyValue units.ParseUlimit (fun _ => none) none
          (.tuple (["nofile=1024"].map CtyValue.string ++
            cty.NumberIntVal 1 :: [.string "x"])) [] =
        Outcome.error (.mismatch (some []) (cty.NumberIntVal 1).ctyType .string) none ∧
      Ulimits.FromCtyValue units.ParseUlimit (fun _ => none) none
          (.list .string (["nofile=1024"].map CtyValue.string ++
            cty.NumberIntVal 1 :: [.string "x"])) [] =
        Outcome.error (.mismatch (some []) (cty.NumberIntVal 1).ctyType .string) none) ∧
    (∀ (pre1 : List String) (s : String) (pre2 : List String) (err : GoError),
      ["nofile=1024"] = pre1 ++ s :: pre2 →
      (∀ t ∈ pre1, ∃ ul, units.ParseUlimit t = .ok ul) →
      units.ParseUlimit s = .error err →
      Ulimits.FromCtyValue units.ParseUlimit (fun _ => none) none
          (.tuple (["nofile=1024"].map CtyValue.string ++
            cty.NumberIntVal 1 :: [.string "x"])) [] = Outcome.error err none ∧
      Ulimits.FromCtyValue units.ParseUlimit (fun _ => none) none
          (.list .string (["nofile=1024"].map CtyValue.string ++
            cty.NumberIntVal 1 :: [.string "x"])) [] = Outcome.error err none) :=
  Ulimits.FromCtyValue_non_string_element units.ParseUlimit (fun _ => none) none []
    ["nofile=1024"] (cty.NumberIntVal 1) [.string "x"] .string
    (by simp [cty.NumberIntVal, CtyValue.ctyType])

/-- C16: collection-level decoding of a value whose type is neither a list,
a tuple, a map nor an object (a number, a string, a boolean) returns the type
mismatch against the map of `ulimitType` and leaves the receiver as it was;
a list or tuple goes to `fromCtyList`, a map or object to `fromCtyMap`. -/
theorem Ulimits.FromCtyValue_dispatch
    (parseUlimit : String → Except GoError units.Ulimit)
    (parseNumberVal : String → Option BigFloat) (u : Ulimits) (v : CtyValue)
    (p : cty.Path) :
    (v.ctyType.IsListType = false → v.ctyType.IsTupleType = false →
      v.ctyType.IsMapType = false → v.ctyType.IsObjectType = false →
      Ulimits.FromCtyValue parseUlimit parseNumberVal u v p =
        Outcome.error (.mismatch (some p) v.ctyType (.map ulimitType)) u) ∧
    (v.ctyType.IsListType = true ∨ v.ctyType.IsTupleType = true →
      Ulimits.FromCtyValue parseUlimit parseNumberVal u v p =
        Ulimits.fromCtyList parseUlimit u v p) ∧
    (v.ctyType.IsMapType = true ∨ v.ctyType.IsObjectType = true →
      Ulimits.FromCtyValue parseUlimit parseNumberVal u v p =
        Ulimits.fromCtyMap parseNumberVal u v p) ∧
    (∀ (x : BigFloat) (s : String) (b : Bool),
      Ulimits.FromCtyValue parseUlimit parseNumberVal u (.number x) p =
        Outcome.error (.mismatch (some p) .number (.map ulimitType)) u ∧
      Ulimits.FromCtyValue parseUlimit parseNumberVal u (.string s) p =
        Outcome.error (.mismatch (some p) .string (.map ulimitType)) u ∧
      Ulimits.FromCtyValue parseUlimit parseNumberVal u (.bool b) p =
        Outcome.error (.mismatch (some p) .bool (.map ulimitType)) u) := by
  refine ⟨?_, ?_, ?_, ?_⟩
  · intro hl ht hm ho
    simp [Ulimits.FromCtyValue, hl, ht, hm, ho]
  · intro h
    simp only [Ulimits.FromCtyValue]
    rw [if_pos h]
  · intro h
    have hseq : ¬ (v.ctyType.IsListType = true ∨ v.ctyType.IsTupleType = true) := by
      cases hty : v.ctyType <;>
        simp [hty, CtyType.IsMapType, CtyType.IsObjectType, CtyType.IsListType,
          CtyType.IsTupleType] at h ⊢
    simp only [Ulimits.FromCtyValue]
    rw [if_neg hseq, if_pos h]
  · intro x s b
    exact ⟨rfl, rfl, rfl⟩

/-- Truncating division of the numerator by the denominator is truncation of
the rational number toward zero. -/
theorem tdiv_num_den_eq_truncate (q : ℚ) :
    Int.tdiv q.num q.den = truncateTowardZero q := by
  unfold truncateTowardZero
  by_cases hq : 0 ≤ q
  · rw [if_pos hq, Rat.floor_def,
      Int.tdiv_eq_ediv (Rat.num_nonneg.2 hq) (Int.ofNat_nonneg _)]
  · rw [if_neg hq]
    have hneg : 0 ≤ -q := by linarith [lt_of_not_ge hq]
    have hfloor : ⌊-q⌋ = (-q.num) / (q.den : Int) := by
      rw [Rat.floor_def, Rat.neg_num, Rat.neg_den]
    have hnum : 0 ≤ -q.num := by
      have := Rat.num_nonneg.2 hneg
      rwa [Rat.neg_num] at this
    have htdiv : Int.tdiv q.num q.den = -(Int.tdiv (-q.num) q.den) := by
      rw [Int.neg_tdiv, neg_neg]
    rw [htdiv, Int.tdiv_eq_ediv hnum (Int.ofNat_nonneg _), ← hfloor, Int.floor_neg, neg_neg]

/-- A finite number whose truncation toward zero fits 64 bits converts to
that truncation. -/
theorem BigFloat.Int64_of_truncate (q : ℚ)
    (hlo : -(2 ^ 63) ≤ truncateTowardZero q) (hhi : truncateTowardZero q ≤ 2 ^ 63 - 1) :
    BigFloat.Int64 (.fin q) = truncateTowardZero q := by
  simp only [BigFloat.Int64, tdiv_num_den_eq_truncate]
  rw [if_neg (by omega), if_neg (by omega)]

/-- The truncations toward zero of 1.9 and of -1.9. -/
theorem truncateTowardZero_examples :
    truncateTowardZero (19 / 10) = 1 ∧ truncateTowardZero (-19 / 10) = -1 := by
  constructor
  · rw [← tdiv_num_den_eq_truncate]
    have h1 : ((19 : ℚ) / 10).num = 19 := by norm_num
    have h2 : ((19 : ℚ) / 10).den = 10 := by norm_num
    rw [h1, h2]
    decide
  · rw [← tdiv_num_den_eq_truncate]
    have h1 : ((-19 : ℚ) / 10).num = -19 := by norm_num
    have h2 : ((-19 : ℚ) / 10).den = 10 := by norm_num
    rw [h1, h2]
    decide

/-- C17: a finite number `x` (and a second one `y`) whose integer part fits 64
bits decodes to `x` truncated toward zero, as a bare number, as an element of
a list or tuple, and as the `soft` or `hard` attribute of an object. -/
theorem Ulimit.FromCtyValue_truncates (parseNumberVal : String → Option BigFloat)
    (r : Ulimit) (p : cty.Path) (x y : ℚ)
    (hxlo : -(2 ^ 63) ≤ truncateTowardZero x) (hxhi : truncateTowardZero x ≤ 2 ^ 63 - 1)
    (hylo : -(2 ^ 63) ≤ truncateTowardZero y) (hyhi : truncateTowardZero y ≤ 2 ^ 63 - 1) :
    Ulimit.FromCtyValue parseNumberVal r (.number (.fin x)) p =
      Outcome.ok { Soft := truncateTowardZero x, Hard := truncateTowardZero x } ∧
    Ulimit.FromCtyValue parseNumberVal r (.list .number [.number (.fin x)]) p =
      Outcome.ok { Soft := truncateTowardZero x, Hard := truncateTowardZero x } ∧
    Ulimit.FromCtyValue parseNumberVal r
        (.list .number [.number (.fin x), .number (.fin y)]) p =
      Outcome.ok { Soft := truncateTowardZero x, Hard := truncateTowardZero y } ∧
    Ulimit.FromCtyValue parseNumberVal r (.tuple [.number (.fin x), .number (.fin y)]) p =
      Outcome.ok { Soft := truncateTowardZero x, Hard := truncateTowardZero y } ∧
    Ulimit.FromCtyValue parseNumberVal r (.object [("soft", .number (.fin x))]) p =
      Outcome.ok { Soft := truncateTowardZero x, Hard := truncateTowardZero x } ∧
    Ulimit.FromCtyValue parseNumberVal r
        (.object [("hard", .number (.fin y)), ("soft", .number (.fin x))]) p =
      Outcome.ok { Soft := truncateTowardZero x, Hard := truncateTowardZero y } := by
  have hx := BigFloat.Int64_of_truncate x hxlo hxhi
  have hy := BigFloat.Int64_of_truncate y hylo hyhi
  refine ⟨?_, ?_, ?_, ?_, ?_, ?_⟩
  · simp only [Ulimit.FromCtyValue, CtyValue.ctyType, Ulimit.fromCtyNumber,
      CtyValue.AsBigFloat, hx]
  · have h := Ulimit.fromCtyNumberList_numbers r [.fin x]
    rw [Ulimit.FromCtyValue_of_number_list]
    simpa only [List.map_cons, List.map_nil, hx] using h
  · have h := Ulimit.fromCtyNumberList_numbers r [.fin x, .fin y]
    rw [Ulimit.FromCtyValue_of_number_list]
    simpa only [List.map_cons, List.map_nil, hx, hy] using h
  · have h := Ulimit.fromCtyNumberList_numbers r [.fin x, .fin y]
    have ht := Ulimit.FromCtyValue_of_number_tuple parseNumberVal r p [.fin x, .fin y]
    simp only [List.map_cons, List.map_nil, hx, hy] at h ht
    rw [ht, h]
  · rw [Ulimit.FromCtyValue_of_soft_only, hx]
  · rw [Ulimit.FromCtyValue_of_hard_soft, hx, hy]

/-- C17, at 1.9 and -1.9, which decode to 1 and -1. -/
theorem Ulimit.FromCtyValue_truncates_witness :
    Ulimit.FromCtyValue (fun _ => none) { Hard := 0, Soft := 0 }
        (.number (.fin (19 / 10))) [] = Outcome.ok { Soft := 1, Hard := 1 } ∧
    Ulimit.FromCtyValue (fun _ => none) { Hard := 0, Soft := 0 }
        (.list .number [.number (.fin (19 / 10))]) [] = Outcome.ok { Soft := 1, Hard := 1 } ∧
    Ulimit.FromCtyValue (fun _ => none) { Hard := 0, Soft := 0 }
        (.list .number [.number (.fin (19 / 10)), .number (.fin (-19 / 10))]) [] =
      Outcome.ok { Soft := 1, Hard := -1 } ∧
    Ulimit.FromCtyValue (fun _ => none) { Hard := 0, Soft := 0 }
        (.tuple [.number (.fin (19 / 10)), .number (.fin (-19 / 10))]) [] =
      Outcome.ok { Soft := 1, Hard := -1 } ∧
    Ulimit.FromCtyValue (fun _ => none) { Hard := 0, Soft := 0 }
        (.object [("soft", .number (.fin (19 / 10)))]) [] =
      Outcome.ok { Soft := 1, Hard := 1 } ∧
    Ulimit.FromCtyValue (fun _ => none) { Hard := 0, Soft := 0 }
        (.object [("hard", .number (.fin (-19 / 10))), ("soft", .number (.fin (19 / 10)))])
        [] = Outcome.ok { Soft := 1, Hard := -1 } := by
  have h := Ulimit.FromCtyValue_truncates (fun _ => none) { Hard := 0, Soft := 0 } []
    (19 / 10) (-19 / 10)
    (by rw [truncateTowardZero_examples.1]; decide)
    (by rw [truncateTowardZero_examples.1]; decide)
    (by rw [truncateTowardZero_examples.2]; decide)
    (by rw [truncateTowardZero_examples.2]; decide)
  rw [truncateTowardZero_examples.1, truncateTowardZero_examples.2] at h
  exact h

/-- A name stored by a list of limits reads the same after the list is stored
into any two maps. -/
theorem foldl_store_lookup_mem (us : List units.Ulimit) (k : String)
    (hk : ∃ u ∈ us, u.Name = k) (m0 m1 : UlimitMap) :
    (us.foldl (fun acc u =>
        acc.insert u.Name (some { Soft := u.Soft, Hard := u.Hard })) m0).lookup k =
    (us.foldl (fun acc u =>
        acc.insert u.Name (some { Soft := u.Soft, Hard := u.Hard })) m1).lookup k := by
  induction us generalizing m0 m1 with
  | nil => obtain ⟨u, hu, _⟩ := hk; cases hu
  | cons w us ih =>
    simp only [List.foldl_cons]
    by_cases hrest : ∃ u ∈ us, u.Name = k
    · exact ih hrest _ _
    · have hne : ∀ u ∈ us, u.Name ≠ k := fun u hu h => hrest ⟨u, hu, h⟩
      have hw : w.Name = k := by
        obtain ⟨u, hu, hname⟩ := hk
        rcases List.mem_cons.1 hu with rfl | hu
        · exact hname
        · exact absurd hname (hne u hu)
      rw [foldl_store_lookup_ne us k hne, foldl_store_lookup_ne us k hne, ← hw,
        AList.lookup_insert, AList.lookup_insert]

/-- A run of `ParseUlimits` without error parsed every token. -/
theorem ParseUlimits_parsed_of_no_error
    (parseUlimit : String → Except GoError units.Ulimit) (s : List String)
    (h : (ParseUlimits parseUlimit s).2 = none) :
    ∃ us, List.Forall₂ (fun tok u => parseUlimit tok = .ok u) s us := by
  rcases tokens_parse_or_first_failure parseUlimit s with
    hus | ⟨pre, tok, post, err, hs, hpre, htok⟩
  · exact hus
  · subst hs
    rw [ParseUlimits, ParseUlimits.loop_error parseUlimit pre tok post err hpre htok ∅] at h
    cases h

/-- C18: when `ParseUlimits` succeeds on `xs` and on `ys`, it succeeds on
`xs ++ ys`, and every name reads in its result what it reads in the `Merge`
of the result for `xs` with the result for `ys`. -/
theorem ParseUlimits_append_eq_Merge
    (parseUlimit : String → Except GoError units.Ulimit) (xs ys : List String)
    (hx : (ParseUlimits parseUlimit xs).2 = none)
    (hy : (ParseUlimits parseUlimit ys).2 = none) :
    (ParseUlimits parseUlimit (xs ++ ys)).2 = none ∧
    ∀ k : String,
      (ParseUlimits parseUlimit (xs ++ ys)).1.lookup k =
        (Ulimits.Merge (ParseUlimits parseUlimit xs).1
          (ParseUlimits parseUlimit ys).1).lookup k := by
  obtain ⟨usx, hux⟩ := ParseUlimits_parsed_of_no_error parseUlimit xs hx
  obtain ⟨usy, huy⟩ := ParseUlimits_parsed_of_no_error parseUlimit ys hy
  have hox := ParseUlimits.loop_ok parseUlimit xs usx hux ∅
  have hoy := ParseUlimits.loop_ok parseUlimit ys usy huy ∅
  have hoxy := ParseUlimits.loop_ok parseUlimit (xs ++ ys) (usx ++ usy)
    (List.rel_append hux huy) ∅
  simp only [ParseUlimits, hox, hoy, hoxy, true_and]
  intro k
  simp only [Ulimits.Merge, Ulimits.entries, Ulimits.lookup, List.foldl_append]
  rw [foldl_insert_lookup _ (AList.nodupKeys _)]
  by_cases hk : ∃ u ∈ usy, u.Name = k
  · rw [foldl_store_lookup_mem usy k hk _ ∅]
    have hmem : k ∈ usy.foldl (fun acc u =>
        acc.insert u.Name (some { Soft := u.Soft, Hard := u.Hard })) (∅ : UlimitMap) :=
      (foldl_store_mem usy k ∅).2 (Or.inr hk)
    obtain ⟨v, hv⟩ := Option.isSome_iff_exists.1 (AList.lookup_isSome.2 hmem)
    have hd : List.dlookup k (usy.foldl (fun acc u =>
        acc.insert u.Name (some { Soft := u.Soft, Hard := u.Hard }))
        (∅ : UlimitMap)).entries = some v := hv
    rw [hv, hd]
  · have hne : ∀ u ∈ usy, u.Name ≠ k := fun u hu h => hk ⟨u, hu, h⟩
    have hnot : k ∉ usy.foldl (fun acc u =>
        acc.insert u.Name (some { Soft := u.Soft, Hard := u.Hard })) (∅ : UlimitMap) := by
      rw [foldl_store_mem]
      rintro (h | h)
      · exact AList.not_mem_empty k h
      · exact hk h
    have hd : List.dlookup k (usy.foldl (fun acc u =>
        acc.insert u.Name (some { Soft := u.Soft, Hard := u.Hard }))
        (∅ : UlimitMap)).entries = none := AList.lookup_eq_none.2 hnot
    rw [foldl_store_lookup_ne usy k hne, hd]

/-- C18, at two token lists that both name `nofile`. -/
theorem ParseUlimits_append_eq_Merge_witness :
    (ParseUlimits units.ParseUlimit
      (["nofile=1024:2048", "nproc=100"] ++ ["nofile=1:2", "core=5"])).2 = none ∧
    ∀ k : String,
      (ParseUlimits units.ParseUlimit
        (["nofile=1024:2048", "nproc=100"] ++ ["nofile=1:2", "core=5"])).1.lookup k =
        (Ulimits.Merge (ParseUlimits units.ParseUlimit ["nofile=1024:2048", "nproc=100"]).1
          (ParseUlimits units.ParseUlimit ["nofile=1:2", "core=5"]).1).lookup k :=
  ParseUlimits_append_eq_Merge units.ParseUlimit ["nofile=1024:2048", "nproc=100"]
    ["nofile=1:2", "core=5"] rfl rfl

/-- The second half of `fromCtyNumberList` returns no error. -/
theorem Ulimit.fromCtyNumberList.assign_no_error (u : Ulimit) (v : CtyValue)
    (err : GoError) (s : Ulimit) :
    Ulimit.fromCtyNumberList.assign u v ≠ Outcome.error err s := by
  intro h
  unfold Ulimit.fromCtyNumberList.assign at h
  repeat' split at h
  all_goals cases h

/-- An error of `fromCtyNumberList` leaves the receiver as it was. -/
theorem Ulimit.fromCtyNumberList_error (u : Ulimit) (v : CtyValue)
    (err : GoError) (s : Ulimit)
    (h : Ulimit.fromCtyNumberList u v = Outcome.error err s) : s = u := by
  unfold Ulimit.fromCtyNumberList at h
  repeat' split at h
  all_goals first
    | cases h; rfl
    | exact absurd h (Ulimit.fromCtyNumberList.assign_no_error u v err s)
    | cases h

/-- An error of the scalar decoder leaves the receiver as it was. -/
theorem Ulimit.FromCtyValue_error (parseNumberVal : String → Option BigFloat)
    (u : Ulimit) (v : CtyValue) (p : cty.Path) (err : GoError) (s : Ulimit)
    (h : Ulimit.FromCtyValue parseNumberVal u v p = Outcome.error err s) : s = u := by
  unfold Ulimit.FromCtyValue at h
  split at h
  · unfold Ulimit.fromCtyNumber at h
    repeat' split at h
    all_goals cases h
  · unfold Ulimit.fromCtyString at h
    repeat' split at h
    all_goals first
      | cases h; rfl
      | exact Ulimit.fromCtyNumberList_error _ _ _ _ h
      | cases h
  · split at h
    · unfold Ulimit.fromCtyList at h
      repeat' split at h
      all_goals first
        | cases h; rfl
        | exact Ulimit.fromCtyNumberList_error _ _ _ _ h
    · unfold Ulimit.fromCtyObject at h
      repeat' split at h
      all_goals (cases h <;> rfl)

/-- An error of the loop of `Ulimits.fromCtyList` leaves the receiver as it
was, and its result on success does not depend on the receiver. -/
theorem Ulimits.fromCtyList.loop_list_receiver
    (parseUlimit : String → Except GoError units.Ulimit) (u : Ulimits) (p : cty.Path)
    (elems : List (CtyValue × CtyValue)) (vals : UlimitMap) :
    (∀ err s, Ulimits.fromCtyList.loop parseUlimit u p elems vals = Outcome.error err s →
      s = u) ∧
    (∀ r, Ulimits.fromCtyList.loop parseUlimit u p elems vals = Outcome.ok r →
      ∀ u' : Ulimits, Ulimits.fromCtyList.loop parseUlimit u' p elems vals = Outcome.ok r) := by
  induction elems generalizing vals with
  | nil =>
    constructor
    · intro err s h; cases h
    · intro r h u'; exact h
  | cons kv elems ih =>
    obtain ⟨key, val⟩ := kv
    constructor
    · intro err s h
      unfold Ulimits.fromCtyList.loop at h
      repeat' split at h
      all_goals first
        | cases h; rfl
        | exact (ih _).1 err s h
        | cases h
    · intro r h u'
      unfold Ulimits.fromCtyList.loop at h ⊢
      repeat' split at h
      all_goals first
        | cases h
        | exact (ih _).2 r h u'

/-- An error of the loop of `Ulimits.fromCtyMap` leaves the receiver as it
was, and its result on success does not depend on the receiver. -/
theorem Ulimits.fromCtyMap.loop_map_receiver
    (parseNumberVal : String → Option BigFloat) (u : Ulimits) (p : cty.Path)
    (elems : List (CtyValue × CtyValue)) (vals : UlimitMap) :
    (∀ err s, Ulimits.fromCtyMap.loop parseNumberVal u p elems vals = Outcome.error err s →
      s = u) ∧
    (∀ r, Ulimits.fromCtyMap.loop parseNumberVal u p elems vals = Outcome.ok r →
      ∀ u' : Ulimits,
        Ulimits.fromCtyMap.loop parseNumberVal u' p elems vals = Outcome.ok r) := by
  induction elems generalizing vals with
  | nil =>
    constructor
    · intro err s h; cases h
    · intro r h u'; exact h
  | cons kv elems ih =>
    obtain ⟨key, val⟩ := kv
    constructor
    · intro err s h
      unfold Ulimits.fromCtyMap.loop at h
      repeat' split at h
      all_goals first
        | cases h; rfl
        | exact (ih _).1 err s h
        | cases h
    · intro r h u'
      unfold Ulimits.fromCtyMap.loop at h ⊢
      repeat' split at h
      all_goals first
        | cases h
        | exact (ih _).2 r h u'

/-- C19: when `Ulimits.FromCtyValue` or `Ulimit.FromCtyValue` returns an
error, the receiver is what it was before the call; when
`Ulimits.FromCtyValue` succeeds, the receiver holds the same collection
whatever it held before, so nothing of its earlier entries is kept. -/
theorem FromCtyValue_atomic
    (parseUlimit : String → Except GoError units.Ulimit)
    (parseNumberVal : String → Option BigFloat) (v : CtyValue) (p : cty.Path) :
    (∀ (u : Ulimits) (err : GoError) (s : Ulimits),
      Ulimits.FromCtyValue parseUlimit parseNumberVal u v p = Outcome.error err s →
      s = u) ∧
    (∀ (u : Ulimit) (err : GoError) (s : Ulimit),
      Ulimit.FromCtyValue parseNumberVal u v p = Outcome.error err s → s = u) ∧
    (∀ (u : Ulimits) (r : Ulimits),
      Ulimits.FromCtyValue parseUlimit parseNumberVal u v p = Outcome.ok r →
      ∀ u' : Ulimits,
        Ulimits.FromCtyValue parseUlimit parseNumberVal u' v p = Outcome.ok r) := by
  refine ⟨?_, fun u err s h => Ulimit.FromCtyValue_error parseNumberVal u v p err s h, ?_⟩
  · intro u err s h
    unfold Ulimits.FromCtyValue Ulimits.fromCtyList Ulimits.fromCtyMap at h
    repeat' split at h
    all_goals first
      | cases h; rfl
      | exact (Ulimits.fromCtyList.loop_list_receiver parseUlimit u p _ _).1 err s h
      | exact (Ulimits.fromCtyMap.loop_map_receiver parseNumberVal u p _ _).1 err s h
      | cases h
  · intro u r h u'
    unfold Ulimits.FromCtyValue Ulimits.fromCtyList Ulimits.fromCtyMap at h ⊢
    repeat' split at h
    all_goals first
      | cases h
      | (rw [if_pos (by assumption)]
         exact (Ulimits.fromCtyList.loop_list_receiver parseUlimit u p _ _).2 r h u')
      | (rw [if_neg (by assumption), if_pos (by assumption)]
         exact (Ulimits.fromCtyMap.loop_map_receiver parseNumberVal u p _ _).2 r h u')

/-- Splitting gives at least one piece. -/
theorem strings.Split_length_pos (s : String) (sep : Char) :
    1 ≤ (strings.Split s sep).length := by
  have h : ∀ cs : List Char, strings.splitChars sep cs ≠ [] := by
    intro cs
    induction cs with
    | nil => simp [strings.splitChars]
    | cons c cs ih =>
      unfold strings.splitChars
      split
      · exact List.cons_ne_nil _ _
      · split <;> exact List.cons_ne_nil _ _
  unfold strings.Split
  rw [List.length_map]
  exact List.length_pos.2 (h _)

/-- An error of `strconv.ParseInt` is a `NumError` naming the function and
the input. -/
theorem strconv.ParseInt_error (s : String) (err : GoError)
    (h : strconv.ParseInt s = .error err) :
    ∃ cause, err = .numError "ParseInt" s cause := by
  unfold strconv.ParseInt at h
  cases hd : s.data with
  | nil =>
    simp only [hd] at h
    cases h
    exact ⟨_, rfl⟩
  | cons c cs =>
    simp only [hd] at h
    cases hp : strconv.ParseUint (if c = '+' ∨ c = '-' then cs else c :: cs) with
    | error cause =>
      rw [hp] at h
      cases cause <;> (cases h; exact ⟨_, rfl⟩)
    | ok un =>
      rw [hp] at h
      simp only at h
      repeat' split at h
      all_goals first
        | (cases h; exact ⟨_, rfl⟩)
        | cases h

/-- Every element on the left of two related lists is related to some
element. -/
theorem forall₂_exists_of_mem {α β : Type} (R : α → β → Prop) (l1 : List α) (l2 : List β)
    (h : List.Forall₂ R l1 l2) : ∀ x ∈ l1, ∃ y, R x y := by
  induction h with
  | nil => intro x hx; cases hx
  | cons hd _ ih =>
    intro x hx
    rcases List.mem_cons.1 hx with rfl | hx
    · exact ⟨_, hd⟩
    · exact ih x hx

/-- The loop of `fromCtyString` succeeds only on parts that all parse, with
the number values of the parsed integers. -/
theorem Ulimit.fromCtyString.elems_ok (parts : List String) (es : List CtyValue)
    (h : Ulimit.fromCtyString.elems parts = .ok es) :
    ∃ ns : List Int,
      List.Forall₂ (fun part n => strconv.ParseInt part = .ok n) parts ns ∧
      es = ns.map cty.NumberIntVal := by
  induction parts generalizing es with
  | nil =>
    simp only [Ulimit.fromCtyString.elems, Except.ok.injEq] at h
    exact ⟨[], List.Forall₂.nil, h.symm⟩
  | cons part parts ih =>
    unfold Ulimit.fromCtyString.elems at h
    split at h
    · cases h
    · rename_i n hn
      split at h
      · cases h
      · rename_i vs hvs
        obtain ⟨ns, hns, rfl⟩ := ih vs hvs
        simp only [Except.ok.injEq] at h
        exact ⟨n :: ns, List.Forall₂.cons hn hns, h.symm⟩

/-- The loop of `fromCtyString` succeeds on parts that all parse. -/
theorem Ulimit.fromCtyString.elems_of_parsed (parts : List String) (ns : List Int)
    (h : List.Forall₂ (fun part n => strconv.ParseInt part = .ok n) parts ns) :
    Ulimit.fromCtyString.elems parts = .ok (ns.map cty.NumberIntVal) := by
  induction h with
  | nil => rfl
  | cons hd _ ih => simp only [Ulimit.fromCtyString.elems, hd, ih, List.map_cons]

/-- An error of the loop of `fromCtyString` is the error of a part that fails
to parse. -/
theorem Ulimit.fromCtyString.elems_error (parts : List String) (err : GoError)
    (h : Ulimit.fromCtyString.elems parts = .error err) :
    ∃ part ∈ parts, strconv.ParseInt part = .error err := by
  induction parts with
  | nil => cases h
  | cons part parts ih =>
    unfold Ulimit.fromCtyString.elems at h
    split at h
    · rename_i e he
      cases h
      exact ⟨part, List.mem_cons_self _ _, he⟩
    · split at h
      · rename_i e he
        cases h
        obtain ⟨x, hx, hxe⟩ := ih he
        exact ⟨x, List.mem_cons_of_mem _ hx, hxe⟩
      · cases h

/-- The scalar decoder on a known string, in terms of the loop over its
parts. -/
theorem Ulimit.FromCtyValue_of_string (parseNumberVal : String → Option BigFloat)
    (u : Ulimit) (p : cty.Path) (s : String) :
    Ulimit.FromCtyValue parseNumberVal u (.string s) p =
      match Ulimit.fromCtyString.elems (strings.Split s ':') with
      | .error err => Outcome.error err u
      | .ok elems =>
        match cty.ListVal elems with
        | none => Outcome.panic
        | some l => Ulimit.fromCtyNumberList u l := by
  simp only [Ulimit.FromCtyValue, CtyValue.ctyType, Ulimit.fromCtyString, CtyValue.AsString]

/-- What `fromCtyString` does with the parsed integers of the parts, by their
number. -/
theorem Ulimit.fromCtyString_of_parsed (u : Ulimit) (ns : List Int) :
    (match cty.ListVal (ns.map cty.NumberIntVal) with
      | none => Outcome.panic
      | some l => Ulimit.fromCtyNumberList u l) =
      match ns with
      | [] => Outcome.panic
      | [a] => Outcome.ok { Soft := BigFloat.Int64 (.fin a), Hard := BigFloat.Int64 (.fin a) }
      | [a, b] =>
        Outcome.ok { Soft := BigFloat.Int64 (.fin a), Hard := BigFloat.Int64 (.fin b) }
      | _ :: _ :: _ :: _ =>
        Outcome.error (.tooMany (ns.map fun (n : Int) => BigFloat.Int64 (.fin (n : ℚ)))) u := by
  have hmap : ns.map cty.NumberIntVal =
      (ns.map fun (n : Int) => BigFloat.fin (n : ℚ)).map CtyValue.number := by
    rw [List.map_map]; rfl
  have h := Ulimit.fromCtyNumberList_numbers u (ns.map fun (n : Int) => BigFloat.fin (n : ℚ))
  rw [← hmap] at h
  match ns with
  | [] => rfl
  | [a] => simpa [cty.ListVal] using h
  | [a, b] => simpa [cty.ListVal] using h
  | a :: b :: c :: rest => simpa [cty.ListVal, List.map_map, Function.comp_def] using h

/-- C20: scalar-level decoding of a string never returns the "too few" error,
since splitting gives at least one part; a part that fails to parse gives the
`ParseInt` error of a part (so do the empty string, `1:` and `1:2:x`); the
"too many" error is returned exactly when there are three or more parts and
all of them parse. -/
theorem Ulimit.FromCtyValue_string_errors (parseNumberVal : String → Option BigFloat)
    (u : Ulimit) (p : cty.Path) (s : String) :
    1 ≤ (strings.Split s ':').length ∧
    (∀ (parts : List Int) (r : Ulimit),
      Ulimit.FromCtyValue parseNumberVal u (.string s) p ≠ Outcome.error (.tooFew parts) r) ∧
    ((∃ part ∈ strings.Split s ':', ∃ err, strconv.ParseInt part = .error err) →
      ∃ part ∈ strings.Split s ':', ∃ cause,
        Ulimit.FromCtyValue parseNumberVal u (.string s) p =
          Outcome.error (.numError "ParseInt" part cause) u) ∧
    ((∃ (parts : List Int) (r : Ulimit),
        Ulimit.FromCtyValue parseNumberVal u (.string s) p =
          Outcome.error (.tooMany parts) r) ↔
      3 ≤ (strings.Split s ':').length ∧
        ∀ part ∈ strings.Split s ':', ∃ n, strconv.ParseInt part = .ok n) ∧
    (Ulimit.FromCtyValue parseNumberVal u (.string "") p =
        Outcome.error (.numError "ParseInt" "" .invalid) u ∧
      Ulimit.FromCtyValue parseNumberVal u (.string "1:") p =
        Outcome.error (.numError "ParseInt" "" .invalid) u ∧
      Ulimit.FromCtyValue parseNumberVal u (.string "1:2:x") p =
        Outcome.error (.numError "ParseInt" "x" .invalid) u) := by
  have hpos := strings.Split_length_pos s ':'
  refine ⟨hpos, ?_, ?_, ?_, rfl, rfl, rfl⟩
  · intro parts r h
    rw [Ulimit.FromCtyValue_of_string] at h
    cases helems : Ulimit.fromCtyString.elems (strings.Split s ':') with
    | error err =>
      rw [helems] at h
      obtain ⟨part, _, hpart⟩ := Ulimit.fromCtyString.elems_error _ _ helems
      obtain ⟨cause, hcause⟩ := strconv.ParseInt_error _ _ hpart
      simp only [Outcome.error.injEq] at h
      rw [hcause] at h
      cases h.1
    | ok es =>
      rw [helems] at h
      obtain ⟨ns, hns, rfl⟩ := Ulimit.fromCtyString.elems_ok _ _ helems
      simp only [Ulimit.fromCtyString_of_parsed] at h
      match ns, h with
      | [], h => cases h
      | [a], h => cases h
      | [a, b], h => cases h
      | a :: b :: c :: rest, h => cases h
  · rintro ⟨part, hpart, err, herr⟩
    rw [Ulimit.FromCtyValue_of_string]
    cases helems : Ulimit.fromCtyString.elems (strings.Split s ':') with
    | error e =>
      obtain ⟨x, hx, hxe⟩ := Ulimit.fromCtyString.elems_error _ _ helems
      obtain ⟨cause, hcause⟩ := strconv.ParseInt_error _ _ hxe
      exact ⟨x, hx, cause, by rw [hcause]⟩
    | ok es =>
      obtain ⟨ns, hns, _⟩ := Ulimit.fromCtyString.elems_ok _ _ helems
      obtain ⟨n, hn⟩ := forall₂_exists_of_mem _ _ _ hns part hpart
      rw [hn] at herr
      cases herr
  · rw [Ulimit.FromCtyValue_of_string]
    constructor
    · rintro ⟨parts, r, h⟩
      cases helems : Ulimit.fromCtyString.elems (strings.Split s ':') with
      | error err =>
        rw [helems] at h
        obtain ⟨part, _, hpart⟩ := Ulimit.fromCtyString.elems_error _ _ helems
        obtain ⟨cause, hcause⟩ := strconv.ParseInt_error _ _ hpart
        simp only [Outcome.error.injEq] at h
        rw [hcause] at h
        cases h.1
      | ok es =>
        rw [helems] at h
        obtain ⟨ns, hns, rfl⟩ := Ulimit.fromCtyString.elems_ok _ _ helems
        simp only [Ulimit.fromCtyString_of_parsed] at h
        refine ⟨?_, forall₂_exists_of_mem _ _ _ hns⟩
        rw [hns.length_eq]
        match ns, h with
        | [], h => cases h
        | [a], h => cases h
        | [a, b], h => cases h
        | a :: b :: c :: rest, _ => simp
    · rintro ⟨hlen, hall⟩
      have hparsed : ∃ ns, List.Forall₂ (fun part n => strconv.ParseInt part = .ok n)
          (strings.Split s ':') ns := by
        generalize strings.Split s ':' = ps at hall
        induction ps with
        | nil => exact ⟨[], List.Forall₂.nil⟩
        | cons part ps ih =>
          obtain ⟨n, hn⟩ := hall part (List.mem_cons_self _ _)
          obtain ⟨ns, hns⟩ := ih (fun x hx => hall x (List.mem_cons_of_mem _ hx))
          exact ⟨n :: ns, List.Forall₂.cons hn hns⟩
      obtain ⟨ns, hns⟩ := hparsed
      rw [Ulimit.fromCtyString.elems_of_parsed _ _ hns]
      simp only [Ulimit.fromCtyString_of_parsed]
      rw [hns.length_eq] at hlen
      match ns, hlen with
      | [], hlen => simp at hlen
      | [a], hlen => simp at hlen
      | [a, b], hlen => simp at hlen
      | a :: b :: c :: rest, _ => exact ⟨_, _, rfl⟩

end buildflags
